import Mathlib

/-!
Verification of the rhai-lsp HIR builder and name resolver.

This file shallowly embeds the two source files of the repository:

* `src/crates/hir/src/module/edit.rs` — the module builder
  (`Module::new_from_syntax`, `add_statement(s)`, `add_expression`,
  `add_to_scope`, `set_as_parent_symbol`) and the reference resolver
  (`Module::resolve_references`).
* `src/crates/rhai-hir/src/ty.rs` — the type data model and the
  `Display` implementation of `TypeFormatter`.

Arenas (slotmap / IndexSet based in the source) are embedded as lists with
`Nat` indices as handles; insertion returns the next index, so handle order
equals insertion order, exactly as the source's iteration order.  CST syntax
spans (`syntax` / `selection_syntax` fields) carry no semantic content for
any verified property and are omitted from the embedded symbol data.

Two pieces of the program are referenced but absent from `src/`
(`visible_symbols_from_symbol` and `SymbolData::name`); they are modelled
from the specification and marked as such in their doc comments.
-/

/-! ## Small list library used by the arena embedding -/

/-- Replace the element at index `i` by `f` applied to it; out-of-range
indices leave the list unchanged. -/
def listModify {α : Type} (l : List α) (i : Nat) (f : α → α) : List α :=
  match l, i with
  | [], _ => []
  | a :: t, 0 => f a :: t
  | a :: t, n + 1 => a :: listModify t n f

theorem listModify_length {α : Type} (l : List α) (i : Nat) (f : α → α) :
    (listModify l i f).length = l.length := by
  induction l generalizing i with
  | nil => rfl
  | cons a t ih =>
    cases i with
    | zero => simp [listModify]
    | succ n => simpa [listModify] using ih n

theorem listModify_get_ne {α : Type} (l : List α) (i j : Nat) (f : α → α)
    (h : i ≠ j) : (listModify l i f)[j]? = l[j]? := by
  induction l generalizing i j with
  | nil => rfl
  | cons a t ih =>
    cases i with
    | zero =>
      cases j with
      | zero => exact absurd rfl h
      | succ m => simp [listModify]
    | succ n =>
      cases j with
      | zero => simp [listModify]
      | succ m =>
        simpa [listModify] using ih n m (by omega)

theorem listModify_get_eq {α : Type} (l : List α) (i : Nat) (f : α → α) :
    (listModify l i f)[i]? = (l[i]?).map f := by
  induction l generalizing i with
  | nil => rfl
  | cons a t ih =>
    cases i with
    | zero => simp [listModify]
    | succ n => simpa [listModify] using ih n

theorem getElem?_append_left_of_lt {α : Type} (l₁ l₂ : List α) (i : Nat)
    (h : i < l₁.length) : (l₁ ++ l₂)[i]? = l₁[i]? := by
  induction l₁ generalizing i with
  | nil => simp at h
  | cons a t ih =>
    cases i with
    | zero => simp
    | succ n =>
      simp only [List.cons_append, List.getElem?_cons_succ]
      exact ih n (by simpa using h)

theorem getElem?_append_length {α : Type} (l₁ l₂ : List α) :
    (l₁ ++ l₂)[l₁.length]? = l₂[0]? := by
  induction l₁ with
  | nil => rfl
  | cons a t ih => simpa using ih

/-! ## Type pretty printing (`src/crates/rhai-hir/src/ty.rs`)

`TypeKind` mirrors the tagged union of the source; `Type` handles are `Nat`
indices into a list-shaped type arena.  `IndexSet<Type>` and
`IndexMap<String, Type>` iterate in insertion order, hence plain lists. -/

inductive TypeKind where
  | module
  | int
  | float
  | bool
  | char
  | string
  | timestamp
  | array (items : Nat)
  | object (fields : List (String × Nat))
  | union (tys : List Nat)
  | void
  | fnT (isClosure : Bool) (params : List (String × Nat)) (ret : Nat)
  | alias (name : String) (ty : Nat)
  | unresolved (name : String)
  | never
  | unknown
deriving DecidableEq

/-- The `Display` implementation of `TypeFormatter`, one constructor arm per
source arm.  The `fuel` argument only bounds recursion depth through type
handles (the source recurses through arena handles, which a well-formed
acyclic arena makes finite); every arm consumes one unit.  An out-of-range
handle (which would panic in the source's `self.hir[self.ty]`) renders as the
empty string.  The comma/pipe separators reproduce the source's
`first`-flag loops byte for byte. -/
def fmtType (hir : List TypeKind) : Nat → Nat → String
  | 0, _ => ""
  | fuel + 1, t =>
    match hir[t]? with
    | none => ""
    | some .module => "module"
    | some .int => "int"
    | some .float => "float"
    | some .bool => "bool"
    | some .char => "char"
    | some .string => "String"
    | some .timestamp => "timestamp"
    | some (.array items) => "[" ++ fmtType hir fuel items ++ "]"
    | some (.object fields) =>
        "#\x7b" ++
          (fields.foldl
            (fun (st : String × Bool) nt =>
              (st.1 ++ (if st.2 then "" else ", ") ++ nt.1 ++ ": " ++
                 fmtType hir fuel nt.2, false))
            ("", true)).1
          ++ "\x7d"
    | some (.union tys) =>
        (tys.foldl
          (fun (st : String × Bool) ty =>
            (st.1 ++ (if st.2 then "" else "| ") ++ fmtType hir fuel ty, false))
          ("", true)).1
    | some .void => "()"
    | some (.fnT isClosure params ret) =>
        (if isClosure then "|" else "fn (") ++
          (params.foldl
            (fun (st : String × Bool) nt =>
              (st.1 ++ (if st.2 then "" else ", ") ++ nt.1 ++ ": " ++
                 fmtType hir fuel nt.2, false))
            ("", true)).1
          ++ (if isClosure then "|" else ")")
          ++ " -> " ++ fmtType hir fuel ret
    | some (.alias n _) => n.trim
    | some (.unresolved n) => n.trim
    | some .never => "!"
    | some .unknown => "?"

/-- Join a list of strings with a separator, the phrasing the specification
uses for union rendering. -/
def joinSep (sep : String) : List String → String
  | [] => ""
  | [x] => x
  | x :: y :: rest => x ++ sep ++ joinSep sep (y :: rest)

theorem fmtType_fold_tail (hir : List TypeKind) (fuel : Nat) (sep : String) :
    ∀ (l : List Nat) (acc : String),
      (l.foldl
        (fun (st : String × Bool) ty =>
          (st.1 ++ (if st.2 then "" else sep) ++ fmtType hir fuel ty, false))
        (acc, false)).1
      = acc ++ (l.map (fun ty => sep ++ fmtType hir fuel ty)).foldl (· ++ ·) "" := by
  intro l
  induction l with
  | nil => intro acc; simp
  | cons x rest ih =>
    intro acc
    simp only [List.foldl_cons, List.map_cons, if_neg Bool.false_ne_true]
    rw [ih]
    have : ∀ (s : String) (ls : List String),
        ls.foldl (· ++ ·) s = s ++ ls.foldl (· ++ ·) "" := by
      intro s ls
      induction ls generalizing s with
      | nil => simp
      | cons a t iht =>
        simp only [List.foldl_cons]
        rw [iht (s ++ a), iht ("" ++ a)]
        simp [String.append_assoc]
    rw [this (("" ++ (sep ++ fmtType hir fuel x)))]
    simp [String.append_assoc]

theorem foldl_append_shift :
    ∀ (ls : List String) (s : String),
      ls.foldl (· ++ ·) s = s ++ ls.foldl (· ++ ·) "" := by
  intro ls
  induction ls with
  | nil => intro s; simp
  | cons a t ih =>
    intro s
    simp only [List.foldl_cons]
    rw [ih (s ++ a), ih ("" ++ a)]
    simp [String.append_assoc]

theorem joinSep_cons_eq (sep : String) :
    ∀ (l : List String) (x0 : String),
      joinSep sep (x0 :: l)
        = x0 ++ (l.map (fun y => sep ++ y)).foldl (· ++ ·) "" := by
  intro l
  induction l with
  | nil => intro x0; simp [joinSep]
  | cons y rest ih =>
    intro x0
    simp only [joinSep, List.map_cons, List.foldl_cons]
    rw [ih y,
      foldl_append_shift (rest.map (fun z => sep ++ z)) ("" ++ (sep ++ y))]
    simp [String.append_assoc]

/-- The union arm of the formatter joins member renderings with the
separator `"| "` (pipe, space), exactly the source's `first`-flag loop. -/
theorem fmtType_union (hir : List TypeKind) (fuel t : Nat) (tys : List Nat)
    (h : hir[t]? = some (TypeKind.union tys)) :
    fmtType hir (fuel + 1) t = joinSep "| " (tys.map (fmtType hir fuel)) := by
  cases tys with
  | nil => simp [fmtType, h, joinSep]
  | cons x rest =>
    simp only [fmtType, h, List.foldl_cons, if_pos rfl, List.map_cons]
    rw [fmtType_fold_tail]
    rw [joinSep_cons_eq, List.map_map]
    simp [Function.comp_def]

/-! ## HIR data model (`src/crates/hir/src/module/edit.rs`)

`Symbol` and `Scope` are arena handles; the arenas are lists, a freshly
inserted entry getting the current length as its handle.  The source
initialises every symbol's `parent_scope` with `Scope::default()` — the
null handle that no inserted entry ever receives — which is embedded as
`Option Scope` with `none` for the null handle. -/

namespace Rhai

/- `Symbol` and `Scope` handles are plain `Nat` arena indices (written as
`Nat` throughout so that arithmetic automation sees them directly). -/

structure ScopeData where
  parentSymbol : Option Nat
  symbols : List Nat
  hoistedSymbols : List Nat
deriving DecidableEq

/-- The tagged `SymbolKind` union of the source.  Payload fields follow the
source structs (`ReferenceSymbol`, `DeclSymbol`, `FnSymbol`, …); `references`
sets are insertion-ordered `IndexSet`s, embedded as lists.  Operator tokens
are abstracted to `Option Nat` codes (their values never matter).  Lean
keywords force the `K` suffix on a few constructor names. -/
inductive SymbolKind where
  | reference (name : String) (partOfPath : Bool) (target : Option Nat)
  | pathK (segments : List Nat)
  | lit
  | decl (name : String) (docs : String) (isConst : Bool) (isParam : Bool)
      (isPat : Bool) (value : Option Nat) (references : List Nat)
  | fnK (name : String) (docs : String) (scope : Nat)
      (references : List Nat)
  | block (scope : Nat)
  | unary (op : Option Nat) (rhs : Option Nat)
  | binary (lhs : Option Nat) (op : Option Nat) (rhs : Option Nat)
  | array (values : List Nat)
  | indexK (base : Option Nat) (idx : Option Nat)
  | object (fields : List (String × Option Nat))
  | call (lhs : Option Nat) (arguments : List Nat)
  | closure (scope : Nat) (expr : Option Nat)
  | ifK (branches : List (Option Nat × Nat))
  | loopK (scope : Nat)
  | forK (iterable : Option Nat) (scope : Nat)
  | whileK (scope : Nat) (condition : Option Nat)
  | breakK (expr : Option Nat)
  | continueK
  | switchK (target : Option Nat) (arms : List (Option Nat × Option Nat))
  | returnK (expr : Option Nat)
  | discard
  | importK (aliasSymbol : Option Nat) (expr : Option Nat)
deriving DecidableEq

structure SymbolData where
  parentScope : Option Nat
  kind : SymbolKind
deriving DecidableEq

structure Module where
  scopes : List ScopeData
  symbols : List SymbolData
  rootScope : Nat
deriving DecidableEq

def symAt (m : Module) (i : Nat) : Option SymbolData := m.symbols[i]?

def scopeAt (m : Module) (s : Nat) : Option ScopeData := m.scopes[s]?

def plainOf (m : Module) (s : Nat) : List Nat :=
  ((scopeAt m s).map ScopeData.symbols).getD []

def hoistedOf (m : Module) (s : Nat) : List Nat :=
  ((scopeAt m s).map ScopeData.hoistedSymbols).getD []

/-- `Module::create_scope`: every call site in the source passes
`parent_symbol` explicitly (always `None`); the `syntax` back-pointer is
omitted as explained in the header. -/
def Module.createScope (m : Module) (parentSymbol : Option Nat) :
    Module × Nat :=
  ({ m with scopes := m.scopes ++ [⟨parentSymbol, [], []⟩] }, m.scopes.length)

/-- `self.symbols.insert(SymbolData { parent_scope: Scope::default(), .. })`:
every symbol in the source is inserted with the null parent scope. -/
def Module.insertSymbol (m : Module) (kind : SymbolKind) : Module × Nat :=
  ({ m with symbols := m.symbols ++ [⟨none, kind⟩] }, m.symbols.length)

/-- `Module::add_to_scope` (release semantics: the `debug_assert!`s - the
symbol is in neither set and its `parent_scope` is the null handle - are
established as theorems where needed, not enforced at runtime). -/
def Module.addToScope (m : Module) (scope : Nat) (symbol : Nat)
    (hoist : Bool) : Module :=
  let m1 : Module :=
    { m with
      scopes := listModify m.scopes scope (fun s =>
        if hoist then { s with hoistedSymbols := s.hoistedSymbols ++ [symbol] }
        else { s with symbols := s.symbols ++ [symbol] }) }
  { m1 with
    symbols := listModify m1.symbols symbol (fun d =>
      { d with parentScope := some scope }) }

/-- `Module::set_as_parent_symbol` (release semantics; the
`debug_assert!(s.parent_symbol.is_none())` is proved at the call sites the
claims concern). -/
def Module.setAsParentSymbol (m : Module) (symbol : Nat) (scope : Nat) :
    Module :=
  { m with
    scopes := listModify m.scopes scope (fun s =>
      { s with parentSymbol := some symbol }) }

/-- In-place mutation of one symbol's kind, the shape shared by the source's
`f.docs = ...`, `branches.push(..)`, `ref_kind.target = ...` and
`references.insert(..)` statements. -/
def modifyKind (m : Module) (symbol : Nat) (F : SymbolKind → SymbolKind) :
    Module :=
  { m with
    symbols := listModify m.symbols symbol (fun d =>
      { d with kind := F d.kind }) }

/-- The docs assignment in `add_statement`: `f.docs = item.docs_content()`
for `Fn`, `decl.docs = ...` for `Decl`, other kinds untouched. -/
def Module.setDocs (m : Module) (symbol : Nat) (docs : String) : Module :=
  modifyKind m symbol (fun k =>
    match k with
    | .fnK n _ sc refs => .fnK n docs sc refs
    | .decl n _ c p pa v refs => .decl n docs c p pa v refs
    | k => k)

/-- `kind.as_if_mut().unwrap().branches.push(..)` in the `Expr::If` arm. -/
def Module.pushIfBranch (m : Module) (symbol : Nat)
    (br : Option Nat × Nat) : Module :=
  modifyKind m symbol (fun k =>
    match k with
    | .ifK bs => .ifK (bs ++ [br])
    | k => k)

/-- `IndexMap` insertion: an existing key keeps its position and gets the
new value, a new key is appended (used by the `Object` arm's `collect`). -/
def indexMapInsert {α : Type} (l : List (String × α)) (k : String) (v : α) :
    List (String × α) :=
  if l.any (fun kv => kv.1 == k) then
    l.map (fun kv => if kv.1 == k then (k, v) else kv)
  else l ++ [(k, v)]

def indexMapFromPairs {α : Type} (ps : List (String × α)) :
    List (String × α) :=
  ps.foldl (fun acc kv => indexMapInsert acc kv.1 kv.2) []

/-! ## The CST as seen by the builder

Each constructor carries exactly the accessors the corresponding
`add_expression` arm consumes, with `Option` wherever the source CST
accessor can return `None` (`ident_token()`, `expr()`, `param_list()`, …).
The right-recursive `if`/`else if` chain is `IfChain`, mirroring
`else_if_branch()`.  A statement wraps an optional item (`stmt.item()`),
which carries doc content and an optional expression. -/

mutual

inductive Expr where
  | identE (tok : Option String)
  | pathE (segments : Option (List String))
  | litE
  | letE (tok : Option String) (value : Option Expr)
  | constE (tok : Option String) (value : Option Expr)
  | blockE (statements : List Stmt)
  | unaryE (op : Option Nat) (rhs : Option Expr)
  | binaryE (lhs : Option Expr) (op : Option Nat) (rhs : Option Expr)
  | parenE (inner : Option Expr)
  | arrayE (values : List Expr)
  | indexE (base : Option Expr) (idx : Option Expr)
  | objectE (fields : List ObjectFieldCst)
  | callE (callee : Option Expr) (argList : Option (List Expr))
  | closureE (paramList : Option (List (Option String))) (body : Option Expr)
  | ifE (chain : IfChain)
  | loopE (body : Option (List Stmt))
  | forE (pat : Option (List String)) (iterable : Option Expr)
      (body : Option (List Stmt))
  | whileE (cond : Option Expr) (body : Option (List Stmt))
  | breakE (value : Option Expr)
  | continueE
  | switchE (target : Option Expr) (armList : Option (List SwitchArmCst))
  | returnE (value : Option Expr)
  | fnE (tok : Option String) (paramList : Option (List (Option String)))
      (body : Option (List Stmt))
  | importE (aliasTok : Option String) (pathExpr : Option Expr)

inductive IfChain where
  | mk (cond : Option Expr) (thenBranch : Option (List Stmt))
      (elseBranch : Option (List Stmt)) (elseIfBranch : Option IfChain)

inductive Stmt where
  | mk (item : Option Item)

inductive Item where
  | mk (docs : String) (expr : Option Expr)

inductive ObjectFieldCst where
  | mk (property : Option String) (value : Option Expr)

inductive SwitchArmCst where
  | mk (discardToken : Bool) (patternExpr : Option Expr)
      (valueExpr : Option Expr)

end

/-- Parameter lowering shared by the `Closure` and `Fn` arms: one
`Decl { name, is_param: true }` per parameter, attached (non-hoisted) to the
given body scope. -/
def addParams (m : Module) (paramScope : Nat) :
    List (Option String) → Module
  | [] => m
  | tok :: rest =>
    let (m1, p) := m.insertSymbol
      (.decl (tok.getD "") "" false true false none [])
    let m2 := m1.addToScope paramScope p false
    addParams m2 paramScope rest

def addParamsOpt (m : Module) (paramScope : Nat) :
    Option (List (Option String)) → Module
  | some ps => addParams m paramScope ps
  | none => m

/-- The `Expr::Path` segment loop: each segment becomes its own
`Reference { name, part_of_path: true }` attached to the enclosing scope,
and the handles are collected in order. -/
def addPathSegments (m : Module) (scope : Nat) :
    List String → Module × List Nat
  | [] => (m, [])
  | seg :: rest =>
    let (m1, p) := m.insertSymbol (.reference seg true none)
    let m2 := m1.addToScope scope p false
    let (m3, ps) := addPathSegments m2 scope rest
    (m3, p :: ps)

/-- The `Expr::For` pattern loop: one `Decl { name, is_pat: true }` per
pattern identifier, attached to the `for` body scope. -/
def addPatIdents (m : Module) (forScope : Nat) : List String → Module
  | [] => m
  | n :: rest =>
    let (m1, p) := m.insertSymbol (.decl n "" false false true none [])
    let m2 := m1.addToScope forScope p false
    addPatIdents m2 forScope rest

def addPatIdentsOpt (m : Module) (forScope : Nat) :
    Option (List String) → Module
  | some idents => addPatIdents m forScope idents
  | none => m

theorem sizeOf_option_pos {α : Type} [SizeOf α] (o : Option α) :
    0 < sizeOf o := by
  cases o <;> simp

mutual

/-- `Module::add_expression`, one alternative per source arm (split on the
`Option` payloads the arm matches on).  Returns the updated module and the
produced symbol, `none` for the pass-through/degenerate cases.  Pair
results of sub-steps are consumed through `.1`/`.2` projections. -/
def addExpression (m : Module) (scope : Nat) : Expr → Module × Option Nat
  | .identE tok =>
    let r := m.insertSymbol (.reference (tok.getD "") false none)
    (r.1.addToScope scope r.2 false, some r.2)
  | .pathE none => (m, none)
  | .pathE (some segs) =>
    let r1 := addPathSegments m scope segs
    let r := r1.1.insertSymbol (.pathK r1.2)
    (r.1.addToScope scope r.2 false, some r.2)
  | .litE =>
    let r := m.insertSymbol .lit
    (r.1.addToScope scope r.2 false, some r.2)
  | .letE tok none =>
    let r := m.insertSymbol (.decl (tok.getD "") "" false false false none [])
    (r.1.addToScope scope r.2 false, some r.2)
  | .letE tok (some e) =>
    let rs := m.createScope none
    let mb := (addExpression rs.1 rs.2 e).1
    let r := mb.insertSymbol
      (.decl (tok.getD "") "" false false false (some rs.2) [])
    let m3 := r.1.setAsParentSymbol r.2 rs.2
    (m3.addToScope scope r.2 false, some r.2)
  | .constE tok none =>
    let r := m.insertSymbol (.decl (tok.getD "") "" true false false none [])
    (r.1.addToScope scope r.2 false, some r.2)
  | .constE tok (some e) =>
    let rs := m.createScope none
    let mb := (addExpression rs.1 rs.2 e).1
    let r := mb.insertSymbol
      (.decl (tok.getD "") "" true false false (some rs.2) [])
    let m3 := r.1.setAsParentSymbol r.2 rs.2
    (m3.addToScope scope r.2 false, some r.2)
  | .blockE statements =>
    let rs := m.createScope none
    let r := rs.1.insertSymbol (.block scope)
    let m3 := r.1.setAsParentSymbol r.2 rs.2
    let m4 := addStatements m3 rs.2 statements
    (m4.addToScope scope r.2 false, some r.2)
  | .unaryE op rhs =>
    let r1 := addExprOpt m scope rhs
    let r := r1.1.insertSymbol (.unary op r1.2)
    (r.1.addToScope scope r.2 false, some r.2)
  | .binaryE lhs op rhs =>
    let r1 := addExprOpt m scope lhs
    let r2 := addExprOpt r1.1 scope rhs
    let r := r2.1.insertSymbol (.binary r1.2 op r2.2)
    (r.1.addToScope scope r.2 false, some r.2)
  | .parenE none => (m, none)
  | .parenE (some e) => addExpression m scope e
  | .arrayE values =>
    let r1 := addExprListCollect m scope values
    let r := r1.1.insertSymbol (.array r1.2)
    (r.1.addToScope scope r.2 false, some r.2)
  | .indexE base idx =>
    let r1 := addExprOpt m scope base
    let r2 := addExprOpt r1.1 scope idx
    let r := r2.1.insertSymbol (.indexK r1.2 r2.2)
    (r.1.addToScope scope r.2 false, some r.2)
  | .objectE fields =>
    let r1 := addObjectFields m scope fields
    let r := r1.1.insertSymbol (.object (indexMapFromPairs r1.2))
    (r.1.addToScope scope r.2 false, some r.2)
  | .callE callee none =>
    let r1 := addExprOpt m scope callee
    let r := r1.1.insertSymbol (.call r1.2 [])
    (r.1.addToScope scope r.2 false, some r.2)
  | .callE callee (some l) =>
    let r1 := addExprOpt m scope callee
    let r2 := addExprListCollect r1.1 scope l
    let r := r2.1.insertSymbol (.call r1.2 r2.2)
    (r.1.addToScope scope r.2 false, some r.2)
  | .closureE paramList body =>
    let rs := m.createScope none
    let m2 := addParamsOpt rs.1 rs.2 paramList
    let r1 := addExprOpt m2 rs.2 body
    let r := r1.1.insertSymbol (.closure scope r1.2)
    (r.1.addToScope scope r.2 false, some r.2)
  | .ifE chain =>
    let r := m.insertSymbol (.ifK [])
    let m2 := ifLoop r.1 scope r.2 chain
    (m2.addToScope scope r.2 false, some r.2)
  | .loopE body =>
    let rs := m.createScope none
    let m2 := addStmtsOpt rs.1 rs.2 body
    let r := m2.insertSymbol (.loopK rs.2)
    let m4 := r.1.setAsParentSymbol r.2 rs.2
    (m4.addToScope scope r.2 false, some r.2)
  | .forE pat iterable body =>
    let rs := m.createScope none
    let m2 := addPatIdentsOpt rs.1 rs.2 pat
    let m3 := addStmtsOpt m2 rs.2 body
    let r4 := addExprOpt m3 scope iterable
    let r := r4.1.insertSymbol (.forK r4.2 scope)
    let m6 := r.1.setAsParentSymbol r.2 rs.2
    (m6.addToScope scope r.2 false, some r.2)
  | .whileE cond body =>
    let rs := m.createScope none
    let m2 := addStmtsOpt rs.1 rs.2 body
    let r3 := addExprOpt m2 scope cond
    let r := r3.1.insertSymbol (.whileK rs.2 r3.2)
    let m5 := r.1.setAsParentSymbol r.2 rs.2
    (m5.addToScope scope r.2 false, some r.2)
  | .breakE value =>
    let r1 := addExprOpt m scope value
    let r := r1.1.insertSymbol (.breakK r1.2)
    (r.1.addToScope scope r.2 false, some r.2)
  | .continueE =>
    let r := m.insertSymbol .continueK
    (r.1.addToScope scope r.2 false, some r.2)
  | .switchE target none =>
    let r1 := addExprOpt m scope target
    let r := r1.1.insertSymbol (.switchK r1.2 [])
    (r.1.addToScope scope r.2 true, some r.2)
  | .switchE target (some l) =>
    let r1 := addExprOpt m scope target
    let r2 := addSwitchArms r1.1 scope l
    let r := r2.1.insertSymbol (.switchK r1.2 r2.2)
    (r.1.addToScope scope r.2 true, some r.2)
  | .returnE value =>
    let r1 := addExprOpt m scope value
    let r := r1.1.insertSymbol (.returnK r1.2)
    (r.1.addToScope scope r.2 false, some r.2)
  | .fnE tok paramList body =>
    let rs := m.createScope none
    let m2 := addParamsOpt rs.1 rs.2 paramList
    let m3 := addStmtsOpt m2 scope body
    let r := m3.insertSymbol (.fnK (tok.getD "") "" rs.2 [])
    let m5 := r.1.addToScope scope r.2 true
    (m5.setAsParentSymbol r.2 rs.2, some r.2)
  | .importE aliasTok pathExpr =>
    let r1 :=
      match aliasTok with
      | some a =>
        let ra := m.insertSymbol (.decl a "" false false false none [])
        (ra.1, some ra.2)
      | none => (m, none)
    let r2 := addExprOpt r1.1 scope pathExpr
    let r := r2.1.insertSymbol (.importK r1.2 r2.2)
    (r.1.addToScope scope r.2 true, some r.2)
termination_by e => sizeOf e

/-- The ubiquitous `e.and_then(|e| self.add_expression(scope, e))`. -/
def addExprOpt (m : Module) (scope : Nat) :
    Option Expr → Module × Option Nat
  | some e => addExpression m scope e
  | none => (m, none)
termination_by oe => sizeOf oe

/-- `iter.filter_map(|e| self.add_expression(scope, e)).collect()`. -/
def addExprListCollect (m : Module) (scope : Nat) :
    List Expr → Module × List Nat
  | [] => (m, [])
  | e :: rest =>
    let r1 := addExpression m scope e
    let r2 := addExprListCollect r1.1 scope rest
    match r1.2 with
    | some p => (r2.1, p :: r2.2)
    | none => (r2.1, r2.2)
termination_by es => sizeOf es

/-- The `Expr::Object` field loop: only fields with both a property name and
a value expression are lowered and kept. -/
def addObjectFields (m : Module) (scope : Nat) :
    List ObjectFieldCst → Module × List (String × Option Nat)
  | [] => (m, [])
  | .mk (some name) (some e) :: rest =>
    let r1 := addExpression m scope e
    let r2 := addObjectFields r1.1 scope rest
    (r2.1, (name, r1.2) :: r2.2)
  | .mk _ none :: rest => addObjectFields m scope rest
  | .mk none _ :: rest => addObjectFields m scope rest
termination_by fs => sizeOf fs

/-- The `Expr::Switch` arm loop.  A discard token inserts a `Discard`
symbol (never attached to a scope) as `left`; a pattern expression then
*overwrites* `left`, exactly as the source's second assignment does. -/
def addSwitchArms (m : Module) (scope : Nat) :
    List SwitchArmCst → Module × List (Option Nat × Option Nat)
  | [] => (m, [])
  | .mk dis pat val :: rest =>
    let r1 :=
      match dis with
      | true =>
        let ri := m.insertSymbol .discard
        (ri.1, some ri.2)
      | false => (m, none)
    let r2 :=
      match pat with
      | some e => addExpression r1.1 scope e
      | none => (r1.1, r1.2)
    let r3 :=
      match val with
      | some e => addExpression r2.1 scope e
      | none => (r2.1, none)
    let r4 := addSwitchArms r3.1 scope rest
    (r4.1, (r2.2, r3.2) :: r4.2)
termination_by arms => sizeOf arms

/-- `Module::add_statement`: unwrap the item and its expression, lower it,
then write the item's docs into a produced `Fn` or `Decl` symbol. -/
def addStatement (m : Module) (scope : Nat) : Stmt → Module × Option Nat
  | .mk none => (m, none)
  | .mk (some (.mk _ none)) => (m, none)
  | .mk (some (.mk docs (some e))) =>
    let r := addExpression m scope e
    match r.2 with
    | some p => (r.1.setDocs p docs, some p)
    | none => (r.1, none)
termination_by st => sizeOf st

/-- `Module::add_statements`. -/
def addStatements (m : Module) (scope : Nat) : List Stmt → Module
  | [] => m
  | s :: rest => addStatements (addStatement m scope s).1 scope rest
termination_by stmts => sizeOf stmts

def addStmtsOpt (m : Module) (scope : Nat) : Option (List Stmt) → Module
  | some stmts => addStatements m scope stmts
  | none => m
termination_by ob => sizeOf ob

/-- One iteration of the branch-flattening `while let` loop of the
`Expr::If` arm: lower the branch condition into the *enclosing* scope,
create and adopt a fresh then-scope, lower the then-branch statements into
it, and push the `(condition, then_scope)` pair onto the `If` symbol's
branches.  The trailing `else` executes the same steps with no condition
and the else body. -/
def ifBranchStep (m : Module) (scope symbol : Nat) (cond : Option Expr)
    (thenB : Option (List Stmt)) : Module :=
  let r1 := addExprOpt m scope cond
  let rs := r1.1.createScope none
  let m3 := rs.1.setAsParentSymbol symbol rs.2
  let m4 := addStmtsOpt m3 rs.2 thenB
  m4.pushIfBranch symbol (r1.2, rs.2)
termination_by sizeOf cond + sizeOf thenB
decreasing_by
  all_goals simp_wf
  all_goals
    (have h1 := sizeOf_option_pos cond
     have h2 := sizeOf_option_pos thenB
     omega)

/-- The `while let Some(branch) = next_branch` loop of the `Expr::If` arm:
push the branch, then either handle a trailing `else` and break, continue
with `else_if_branch()`, or stop. -/
def ifLoop (m : Module) (scope symbol : Nat) : IfChain → Module
  | .mk cond thenB (some elseBody) _ =>
    ifBranchStep (ifBranchStep m scope symbol cond thenB) scope symbol none
      (some elseBody)
  | .mk cond thenB none (some next) =>
    ifLoop (ifBranchStep m scope symbol cond thenB) scope symbol next
  | .mk cond thenB none none =>
    ifBranchStep m scope symbol cond thenB
termination_by chain => sizeOf chain
decreasing_by
  all_goals simp_wf
  all_goals try omega
  all_goals
    (have h1 := sizeOf_option_pos cond
     have h2 := sizeOf_option_pos thenB
     omega)

end

/-- `Module::new_from_syntax` (for a successfully cast root): create the
root scope with no parent symbol and lower every top-level statement into
it.  The module name and syntax back-pointers are omitted. -/
def buildModule (statements : List Stmt) : Module :=
  let m0 : Module := ⟨[], [], 0⟩
  let (m1, root) := m0.createScope none
  let m2 : Module := { m1 with rootScope := root }
  addStatements m2 root statements

/-! ## Reference resolution (`Module::resolve_references`)

The resolver loop itself is in `src/`; two functions it relies on are not
(`SymbolData::name` and `visible_symbols_from_symbol`) and are modelled
from the specification below. -/

/-- Modelled from the spec: `SymbolData::name` is absent from `src/`.
Section 3.3 gives `name: string` payloads to exactly the `Reference`,
`Decl` and `Fn` kinds ("Missing name → empty string; declaration is still
created", §7), so `name()` yields those strings and `None` for every other
kind. -/
def symName (m : Module) (v : Nat) : Option String :=
  match symAt m v with
  | some d =>
    match d.kind with
    | .reference n _ _ => some n
    | .decl n _ _ _ _ _ _ => some n
    | .fnK n _ _ _ => some n
    | _ => none
  | none => none

/-- A declaration candidate in the sense of §4.6: a symbol whose kind is
`Fn` or `Decl` (the only kinds the resolver's `unreachable!` arm admits). -/
def declCandidate (m : Module) (v : Nat) : Bool :=
  match symAt m v with
  | some d =>
    match d.kind with
    | .decl _ _ _ _ _ _ _ => true
    | .fnK _ _ _ _ => true
    | _ => false
  | none => false

/-- Modelled from the spec: `visible_symbols_from_symbol` is absent from
`src/`.  Per §4.6 it lazily enumerates declaration candidates in priority
order: within a scope all `hoisted_symbols` are visible, non-hoisted
`symbols` only when they precede the reference in insertion order; after a
scope is exhausted the walk ascends to the scope containing the parent
symbol, and the root (no parent symbol) terminates it.  The fuel argument
caps the ascent at the number of scopes, enough for every parent chain a
builder-produced module contains. -/
def visibleInScope (m : Module) (refSym : Nat) (sd : ScopeData) :
    List Nat :=
  sd.hoistedSymbols.filter (fun v => declCandidate m v)
    ++ sd.symbols.filter (fun v => decide (v < refSym) && declCandidate m v)

def visibleAux (m : Module) (refSym : Nat) :
    Nat → Option Nat → List Nat
  | 0, _ => []
  | _, none => []
  | fuel + 1, some s =>
    match scopeAt m s with
    | none => []
    | some sd =>
      visibleInScope m refSym sd
        ++ (match sd.parentSymbol with
            | none => []
            | some ps =>
              visibleAux m refSym fuel ((symAt m ps).bind SymbolData.parentScope))

def visibleSymbolsFromSymbol (m : Module) (refSym : Nat) : List Nat :=
  visibleAux m refSym (m.scopes.length + 1)
    ((symAt m refSym).bind SymbolData.parentScope)

/-- `ref_kind.target = ...` on a reference symbol (other kinds untouched;
the resolver only performs this on references). -/
def setTarget (m : Module) (i : Nat) (t : Option Nat) : Module :=
  modifyKind m i (fun k =>
    match k with
    | .reference n p _ => .reference n p t
    | k => k)

/-- `target.references.insert(symbol)` — `IndexSet` insertion into the
matched `Fn`/`Decl`; any other kind hits the source's `unreachable!` (never
reached through the modelled visibility, which yields only candidates) and
is embedded as a no-op. -/
def insertRef (m : Module) (h : Nat) (i : Nat) : Module :=
  modifyKind m h (fun k =>
    match k with
    | .decl n doc c p pa v refs =>
      .decl n doc c p pa v (if i ∈ refs then refs else refs ++ [i])
    | .fnK n doc sc refs =>
      .fnK n doc sc (if i ∈ refs then refs else refs ++ [i])
    | k => k)

def refsOf (m : Module) (h : Nat) : List Nat :=
  match symAt m h with
  | some d =>
    match d.kind with
    | .decl _ _ _ _ _ _ refs => refs
    | .fnK _ _ _ refs => refs
    | _ => []
  | none => []

/-- The resolver's per-candidate test: skip only when `name()` is `Some`
and differs from the reference's name (`if let Some(n) = ... { if n !=
ref_kind.name { continue; } }`); a missing name falls through to selection. -/
def selectsName (m : Module) (nm : String) (v : Nat) : Bool :=
  match symName m v with
  | some n => n == nm
  | none => true

/-- The inner `for vis_symbol in ... { ... break; }` loop: scan the visible
sequence, insert the reference into the first selected symbol's
`references`, set the reference's target, stop. -/
def resolveOne (m : Module) (i : Nat) (nm : String) :
    List Nat → Module
  | [] => m
  | v :: rest =>
    if selectsName m nm v then
      setTarget (insertRef m v i) i (some v)
    else resolveOne m i nm rest

/-- One iteration of the outer resolver loop: references get their target
cleared and recomputed, all other kinds are skipped by the `filter_map`. -/
def resolveSymbol (m : Module) (i : Nat) : Module :=
  match symAt m i with
  | some d =>
    match d.kind with
    | .reference nm _ _ =>
      let m1 := setTarget m i none
      resolveOne m1 i nm (visibleSymbolsFromSymbol m1 i)
    | _ => m
  | none => m

/-- `Module::resolve_references`: iterate the symbol arena in insertion
order, resolving each reference in place. -/
def resolveReferences (m : Module) : Module :=
  (List.range m.symbols.length).foldl resolveSymbol m

/-! ## Scope invariants and basic facts about the primitive operations -/

def scopeMembers (sd : ScopeData) : List Nat :=
  sd.symbols ++ sd.hoistedSymbols

/-- The §3.2 scope invariants for one scope: every member handle is a live
symbol whose `parent_scope` points back at this scope, and the two member
sets contain no duplicate and are disjoint (their concatenation is nodup). -/
def ScopeOk (m : Module) (s : Nat) (sd : ScopeData) : Prop :=
  (∀ x ∈ scopeMembers sd, x < m.symbols.length ∧
      (symAt m x).map SymbolData.parentScope = some (some s)) ∧
  (scopeMembers sd).Nodup

def INV (m : Module) : Prop :=
  ∀ s ∈ List.range m.scopes.length, ∀ sd ∈ (scopeAt m s).toList, ScopeOk m s sd

theorem scopeAt_lt_of_some {m : Module} {s : Nat} {sd : ScopeData}
    (h : scopeAt m s = some sd) : s < m.scopes.length := by
  cases Nat.lt_or_ge s m.scopes.length with
  | inl hlt => exact hlt
  | inr hge =>
    have hnone : m.scopes[s]? = none := List.getElem?_eq_none hge
    rw [scopeAt, hnone] at h
    cases h

theorem symAt_lt_of_some {m : Module} {i : Nat} {d : SymbolData}
    (h : symAt m i = some d) : i < m.symbols.length := by
  cases Nat.lt_or_ge i m.symbols.length with
  | inl hlt => exact hlt
  | inr hge =>
    have hnone : m.symbols[i]? = none := List.getElem?_eq_none hge
    rw [symAt, hnone] at h
    cases h

theorem scopeAt_of_lt {m : Module} {s : Nat} (h : s < m.scopes.length) :
    ∃ sd, scopeAt m s = some sd := by
  rw [scopeAt]
  exact ⟨m.scopes[s], List.getElem?_eq_getElem h⟩

theorem inv_elim {m : Module} (h : INV m) {s : Nat} {sd : ScopeData}
    (hs : scopeAt m s = some sd) : ScopeOk m s sd := by
  exact h s (List.mem_range.mpr (scopeAt_lt_of_some hs)) sd (by simp [hs])

theorem inv_intro {m : Module}
    (h : ∀ s sd, scopeAt m s = some sd → ScopeOk m s sd) : INV m := by
  intro s _ sd hsd
  cases hEq : scopeAt m s with
  | none => rw [hEq] at hsd; cases hsd
  | some sd2 =>
    rw [hEq] at hsd
    simp at hsd
    exact hsd ▸ h s sd2 hEq

/-! Pointwise behaviour of the primitive operations. -/

theorem insertSymbol_scopes (m : Module) (k : SymbolKind) :
    ((m.insertSymbol k).1).scopes = m.scopes := rfl

theorem insertSymbol_snd (m : Module) (k : SymbolKind) :
    (m.insertSymbol k).2 = m.symbols.length := rfl

theorem insertSymbol_symLen (m : Module) (k : SymbolKind) :
    ((m.insertSymbol k).1).symbols.length = m.symbols.length + 1 := by
  simp [Module.insertSymbol]

theorem insertSymbol_symAt_lt (m : Module) (k : SymbolKind) {i : Nat}
    (h : i < m.symbols.length) :
    symAt (m.insertSymbol k).1 i = symAt m i := by
  simpa [symAt, Module.insertSymbol] using
    getElem?_append_left_of_lt m.symbols [⟨none, k⟩] i h

theorem insertSymbol_symAt_self (m : Module) (k : SymbolKind) :
    symAt (m.insertSymbol k).1 m.symbols.length = some ⟨none, k⟩ := by
  simp [symAt, Module.insertSymbol, getElem?_append_length]

theorem createScope_symbols (m : Module) (ps : Option Nat) :
    ((m.createScope ps).1).symbols = m.symbols := rfl

theorem createScope_snd (m : Module) (ps : Option Nat) :
    (m.createScope ps).2 = m.scopes.length := rfl

theorem createScope_scLen (m : Module) (ps : Option Nat) :
    ((m.createScope ps).1).scopes.length = m.scopes.length + 1 := by
  simp [Module.createScope]

theorem createScope_scopeAt_lt (m : Module) (ps : Option Nat) {s : Nat}
    (h : s < m.scopes.length) :
    scopeAt (m.createScope ps).1 s = scopeAt m s := by
  simpa [scopeAt, Module.createScope] using
    getElem?_append_left_of_lt m.scopes [⟨ps, [], []⟩] s h

theorem createScope_scopeAt_self (m : Module) (ps : Option Nat) :
    scopeAt (m.createScope ps).1 m.scopes.length = some ⟨ps, [], []⟩ := by
  simp [scopeAt, Module.createScope, getElem?_append_length]

theorem addToScope_symLen (m : Module) (scope : Nat) (p : Nat) (hoist : Bool) :
    (m.addToScope scope p hoist).symbols.length = m.symbols.length := by
  simp [Module.addToScope, listModify_length]

theorem addToScope_scLen (m : Module) (scope : Nat) (p : Nat) (hoist : Bool) :
    (m.addToScope scope p hoist).scopes.length = m.scopes.length := by
  simp [Module.addToScope, listModify_length]

theorem addToScope_symAt_ne (m : Module) (scope : Nat) (p : Nat) (hoist : Bool)
    {i : Nat} (h : i ≠ p) :
    symAt (m.addToScope scope p hoist) i = symAt m i := by
  simpa [symAt, Module.addToScope] using
    listModify_get_ne m.symbols p i _ (Ne.symm h)

theorem addToScope_symAt_self (m : Module) (scope : Nat) (p : Nat) (hoist : Bool) :
    symAt (m.addToScope scope p hoist) p
      = (symAt m p).map (fun d => { d with parentScope := some scope }) := by
  simpa [symAt, Module.addToScope] using
    listModify_get_eq m.symbols p (fun d => { d with parentScope := some scope })

theorem addToScope_scopeAt_ne (m : Module) (scope : Nat) (p : Nat) (hoist : Bool)
    {s : Nat} (h : s ≠ scope) :
    scopeAt (m.addToScope scope p hoist) s = scopeAt m s := by
  simpa [scopeAt, Module.addToScope] using
    listModify_get_ne m.scopes scope s _ (Ne.symm h)

theorem addToScope_scopeAt_self (m : Module) (scope : Nat) (p : Nat) (hoist : Bool) :
    scopeAt (m.addToScope scope p hoist) scope
      = (scopeAt m scope).map (fun sd =>
          if hoist then { sd with hoistedSymbols := sd.hoistedSymbols ++ [p] }
          else { sd with symbols := sd.symbols ++ [p] }) := by
  simp [scopeAt, Module.addToScope, listModify_get_eq]

theorem addToScope_scPar (m : Module) (scope : Nat) (p : Nat) (hoist : Bool)
    (s : Nat) :
    (scopeAt (m.addToScope scope p hoist) s).map ScopeData.parentSymbol
      = (scopeAt m s).map ScopeData.parentSymbol := by
  by_cases hs : s = scope
  · subst hs
    rw [addToScope_scopeAt_self]
    cases scopeAt m s with
    | none => rfl
    | some sd => cases hoist <;> rfl
  · rw [addToScope_scopeAt_ne m scope p hoist hs]

theorem setParent_symbols (m : Module) (symbol : Nat) (scope : Nat) :
    (m.setAsParentSymbol symbol scope).symbols = m.symbols := rfl

theorem setParent_symAt (m : Module) (symbol : Nat) (scope : Nat) (i : Nat) :
    symAt (m.setAsParentSymbol symbol scope) i = symAt m i := rfl

theorem setParent_scLen (m : Module) (symbol : Nat) (scope : Nat) :
    (m.setAsParentSymbol symbol scope).scopes.length = m.scopes.length := by
  simp [Module.setAsParentSymbol, listModify_length]

theorem setParent_scopeAt_ne (m : Module) (symbol : Nat) (scope : Nat)
    {s : Nat} (h : s ≠ scope) :
    scopeAt (m.setAsParentSymbol symbol scope) s = scopeAt m s := by
  simpa [scopeAt, Module.setAsParentSymbol] using
    listModify_get_ne m.scopes scope s _ (Ne.symm h)

theorem setParent_scopeAt_self (m : Module) (symbol : Nat) (scope : Nat) :
    scopeAt (m.setAsParentSymbol symbol scope) scope
      = (scopeAt m scope).map (fun sd => { sd with parentSymbol := some symbol }) := by
  simp [scopeAt, Module.setAsParentSymbol, listModify_get_eq]

theorem setParent_members (m : Module) (symbol : Nat) (scope : Nat) (s : Nat) :
    (scopeAt (m.setAsParentSymbol symbol scope) s).map scopeMembers
      = (scopeAt m s).map scopeMembers := by
  by_cases hs : s = scope
  · subst hs
    rw [setParent_scopeAt_self]
    cases scopeAt m s <;> rfl
  · rw [setParent_scopeAt_ne m symbol scope hs]

/-! Kind-modifying operations: generic lemmas about `modifyKind` and the
specialised equations the proofs use. -/

theorem modifyKind_scopes (m : Module) (j : Nat) (F : SymbolKind → SymbolKind) :
    (modifyKind m j F).scopes = m.scopes := rfl

theorem modifyKind_symLen (m : Module) (j : Nat) (F : SymbolKind → SymbolKind) :
    (modifyKind m j F).symbols.length = m.symbols.length := by
  simp [modifyKind, listModify_length]

theorem modifyKind_symAt_ne (m : Module) (j : Nat) (F : SymbolKind → SymbolKind)
    {i : Nat} (h : i ≠ j) :
    symAt (modifyKind m j F) i = symAt m i := by
  simpa [symAt, modifyKind] using listModify_get_ne m.symbols j i _ (Ne.symm h)

theorem modifyKind_symAt_self (m : Module) (j : Nat) (F : SymbolKind → SymbolKind) :
    symAt (modifyKind m j F) j
      = (symAt m j).map (fun d => { d with kind := F d.kind }) := by
  simp [symAt, modifyKind, listModify_get_eq]

theorem modifyKind_parentScope (m : Module) (j : Nat)
    (F : SymbolKind → SymbolKind) (i : Nat) :
    (symAt (modifyKind m j F) i).map SymbolData.parentScope
      = (symAt m i).map SymbolData.parentScope := by
  by_cases h : i = j
  · subst h
    rw [modifyKind_symAt_self]
    cases symAt m i <;> rfl
  · rw [modifyKind_symAt_ne m j F h]

theorem pushIfBranch_symAt_ifK (m : Module) (p : Nat) (br : Option Nat × Nat)
    {ps : Option Nat} {brs : List (Option Nat × Nat)}
    (h : symAt m p = some ⟨ps, .ifK brs⟩) :
    symAt (m.pushIfBranch p br) p = some ⟨ps, .ifK (brs ++ [br])⟩ := by
  rw [Module.pushIfBranch, modifyKind_symAt_self, h]
  rfl

theorem setTarget_symAt_ref (m : Module) (i : Nat) (t : Option Nat)
    {ps : Option Nat} {nm : String} {pp : Bool} {t0 : Option Nat}
    (h : symAt m i = some ⟨ps, .reference nm pp t0⟩) :
    symAt (setTarget m i t) i = some ⟨ps, .reference nm pp t⟩ := by
  rw [setTarget, modifyKind_symAt_self, h]
  rfl

/-! INV preservation. -/

theorem INV_of_pres {m mq : Module}
    (hmem : ∀ s, (scopeAt mq s).map scopeMembers = (scopeAt m s).map scopeMembers)
    (hlen : mq.symbols.length = m.symbols.length)
    (hps : ∀ x, (symAt mq x).map SymbolData.parentScope
      = (symAt m x).map SymbolData.parentScope) :
    INV m → INV mq := by
  intro h
  apply inv_intro
  intro s sd hsd
  have hm := hmem s
  rw [hsd] at hm
  cases hOld : scopeAt m s with
  | none => rw [hOld] at hm; cases hm
  | some sd2 =>
    rw [hOld] at hm
    simp at hm
    obtain ⟨h1, h2⟩ := inv_elim h hOld
    constructor
    · intro x hx
      rw [hm] at hx
      obtain ⟨ha, hb⟩ := h1 x hx
      exact ⟨by omega, by rw [hps]; exact hb⟩
    · rw [hm]; exact h2

theorem INV_setParent (m : Module) (symbol : Nat) (scope : Nat) :
    INV m → INV (m.setAsParentSymbol symbol scope) :=
  INV_of_pres (setParent_members m symbol scope)
    (by rw [setParent_symbols])
    (fun x => by rw [setParent_symAt])

theorem INV_modifyKind (m : Module) (j : Nat) (F : SymbolKind → SymbolKind) :
    INV m → INV (modifyKind m j F) :=
  INV_of_pres (fun s => by rw [scopeAt, scopeAt, modifyKind_scopes])
    (modifyKind_symLen m j F)
    (modifyKind_parentScope m j F)

theorem INV_insertSymbol (m : Module) (k : SymbolKind) :
    INV m → INV (m.insertSymbol k).1 := by
  intro h
  apply inv_intro
  intro s sd hsd
  have hOld : scopeAt m s = some sd := hsd
  obtain ⟨h1, h2⟩ := inv_elim h hOld
  refine ⟨?_, h2⟩
  intro x hx
  obtain ⟨ha, hb⟩ := h1 x hx
  refine ⟨by rw [insertSymbol_symLen]; omega, ?_⟩
  rw [insertSymbol_symAt_lt m k ha]
  exact hb

theorem INV_createScope (m : Module) (ps : Option Nat) :
    INV m → INV (m.createScope ps).1 := by
  intro h
  apply inv_intro
  intro s sd hsd
  have hlt : s < m.scopes.length + 1 := by
    have := scopeAt_lt_of_some hsd
    rwa [createScope_scLen] at this
  rcases Nat.lt_or_ge s m.scopes.length with hlt2 | hge
  · rw [createScope_scopeAt_lt m ps hlt2] at hsd
    obtain ⟨h1, h2⟩ := inv_elim h hsd
    refine ⟨?_, h2⟩
    intro x hx
    obtain ⟨ha, hb⟩ := h1 x hx
    exact ⟨by rw [createScope_symbols]; exact ha, hb⟩
  · have hs : s = m.scopes.length := by omega
    subst hs
    rw [createScope_scopeAt_self] at hsd
    cases hsd
    refine ⟨?_, ?_⟩
    · intro x hx
      simp [scopeMembers] at hx
    · simp [scopeMembers]

theorem nodup_append_singleton {p : Nat} {xs : List Nat}
    (hn : xs.Nodup) (hp : p ∉ xs) : (xs ++ [p]).Nodup := by
  have : xs ++ [p] = xs ++ p :: [] := rfl
  rw [this, List.nodup_middle]
  simp [List.nodup_cons, hn, hp]

theorem INV_addToScope (m : Module) (scope : Nat) (p : Nat) (hoist : Bool)
    (h : INV m)
    (hps : (symAt m p).map SymbolData.parentScope = some none) :
    INV (m.addToScope scope p hoist) := by
  obtain ⟨d, hd⟩ : ∃ d, symAt m p = some d := by
    cases hc : symAt m p with
    | none => rw [hc] at hps; cases hps
    | some d => exact ⟨d, rfl⟩
  have hdps : d.parentScope = none := by
    rw [hd] at hps
    simpa using hps
  have hplt : p < m.symbols.length := symAt_lt_of_some hd
  have hnotmem : ∀ s sd, scopeAt m s = some sd → p ∉ scopeMembers sd := by
    intro s sd hsd hmem
    obtain ⟨h1, _⟩ := inv_elim h hsd
    obtain ⟨_, hps2⟩ := h1 p hmem
    rw [hd] at hps2
    simp [hdps] at hps2
  apply inv_intro
  intro s sd2 hsd2
  by_cases hs : s = scope
  · subst hs
    rw [addToScope_scopeAt_self] at hsd2
    cases hOld : scopeAt m s with
    | none => rw [hOld] at hsd2; cases hsd2
    | some sd =>
      rw [hOld] at hsd2
      simp only [Option.map_some', Option.some.injEq] at hsd2
      have hpnot := hnotmem s sd hOld
      obtain ⟨h1, h2⟩ := inv_elim h hOld
      have hmemEq : scopeMembers sd2 =
          if hoist then sd.symbols ++ (sd.hoistedSymbols ++ [p])
          else (sd.symbols ++ [p]) ++ sd.hoistedSymbols := by
        rw [← hsd2]
        cases hoist <;> simp [scopeMembers]
      have hmemIff : ∀ x, x ∈ scopeMembers sd2 ↔ (x ∈ scopeMembers sd ∨ x = p) := by
        intro x
        rw [hmemEq]
        cases hoist <;> simp [scopeMembers] <;> tauto
      constructor
      · intro x hx
        rcases (hmemIff x).mp hx with hxo | hxp
        · obtain ⟨ha, hb⟩ := h1 x hxo
          have hxnp : x ≠ p := fun hEq => hpnot (hEq ▸ hxo)
          refine ⟨by rw [addToScope_symLen]; exact ha, ?_⟩
          rw [addToScope_symAt_ne m s p hoist hxnp]
          exact hb
        · subst hxp
          refine ⟨by rw [addToScope_symLen]; exact hplt, ?_⟩
          rw [addToScope_symAt_self, hd]
          rfl
      · rw [hmemEq]
        cases hoist
        · simp only [Bool.false_eq_true, if_false]
          have : (sd.symbols ++ [p]) ++ sd.hoistedSymbols
              = sd.symbols ++ p :: sd.hoistedSymbols := by
            simp
          rw [this, List.nodup_middle]
          exact List.nodup_cons.mpr ⟨hpnot, h2⟩
        · simp only [if_true]
          have : sd.symbols ++ (sd.hoistedSymbols ++ [p])
              = scopeMembers sd ++ [p] := by
            simp [scopeMembers]
          rw [this]
          exact nodup_append_singleton h2 hpnot
  · rw [addToScope_scopeAt_ne m scope p hoist hs] at hsd2
    obtain ⟨h1, h2⟩ := inv_elim h hsd2
    refine ⟨?_, h2⟩
    intro x hx
    obtain ⟨ha, hb⟩ := h1 x hx
    have hxnp : x ≠ p := fun hEq => hnotmem s sd2 hsd2 (hEq ▸ hx)
    refine ⟨by rw [addToScope_symLen]; exact ha, ?_⟩
    rw [addToScope_symAt_ne m scope p hoist hxnp]
    exact hb

/-- A symbol whose `parent_scope` is still the null handle belongs to no
scope's member sets (the resolver-facing face of the §3.2 invariants). -/
theorem notmem_of_parentScope_none {m : Module} {p : Nat}
    (h : INV m) (hps : (symAt m p).map SymbolData.parentScope = some none)
    {s : Nat} {sd : ScopeData} (hsd : scopeAt m s = some sd) :
    p ∉ scopeMembers sd := by
  intro hmem
  obtain ⟨h1, _⟩ := inv_elim h hsd
  obtain ⟨_, hps2⟩ := h1 p hmem
  rw [hps2] at hps
  simp at hps

/-! ## The builder-step relation

`BStep m mq` records what every builder operation guarantees relative to an
earlier state `m`: arenas only grow, symbol entries that already existed are
untouched, the `parent_symbol` of scopes that already existed is untouched,
and the scope invariants are preserved. -/

structure BStep (m mq : Module) : Prop where
  symLen : m.symbols.length ≤ mq.symbols.length
  scLen : m.scopes.length ≤ mq.scopes.length
  symPres : ∀ i, i < m.symbols.length → symAt mq i = symAt m i
  scPar : ∀ s, s < m.scopes.length →
    (scopeAt mq s).map ScopeData.parentSymbol
      = (scopeAt m s).map ScopeData.parentSymbol
  inv : INV m → INV mq

theorem BStep.rfl (m : Module) : BStep m m :=
  ⟨Nat.le_refl _, Nat.le_refl _, fun _ _ => Eq.refl _, fun _ _ => Eq.refl _,
    fun h => h⟩

theorem BStep.trans {m1 m2 m3 : Module} (a : BStep m1 m2) (b : BStep m2 m3) :
    BStep m1 m3 :=
  ⟨Nat.le_trans a.symLen b.symLen, Nat.le_trans a.scLen b.scLen,
    fun i h => (b.symPres i (Nat.lt_of_lt_of_le h a.symLen)).trans (a.symPres i h),
    fun s h => (b.scPar s (Nat.lt_of_lt_of_le h a.scLen)).trans (a.scPar s h),
    fun h => b.inv (a.inv h)⟩

theorem bstep_insertSymbol (m : Module) (k : SymbolKind) :
    BStep m (m.insertSymbol k).1 :=
  ⟨by rw [insertSymbol_symLen]; omega,
    by rw [insertSymbol_scopes],
    fun i h => insertSymbol_symAt_lt m k h,
    fun s _ => by rw [scopeAt, scopeAt, insertSymbol_scopes],
    INV_insertSymbol m k⟩

theorem bstep_createScope (m : Module) (ps : Option Nat) :
    BStep m (m.createScope ps).1 :=
  ⟨by rw [createScope_symbols],
    by rw [createScope_scLen]; omega,
    fun i _ => by rw [symAt, symAt, createScope_symbols],
    fun s h => by rw [createScope_scopeAt_lt m ps h],
    INV_createScope m ps⟩

theorem bstep_setParent_fresh {m0 m : Module} (symbol sc : Nat)
    (hb : BStep m0 m) (hfresh : m0.scopes.length ≤ sc) :
    BStep m0 (m.setAsParentSymbol symbol sc) :=
  ⟨by rw [setParent_symbols]; exact hb.symLen,
    by rw [setParent_scLen]; exact hb.scLen,
    fun i h => by rw [setParent_symAt]; exact hb.symPres i h,
    fun s h => by
      rw [setParent_scopeAt_ne m symbol sc (show s ≠ sc by omega)]
      exact hb.scPar s h,
    fun h => INV_setParent _ _ _ (hb.inv h)⟩

theorem bstep_modifyKind_fresh {m0 m : Module} (j : Nat) (F : SymbolKind → SymbolKind)
    (hb : BStep m0 m) (hfresh : m0.symbols.length ≤ j) :
    BStep m0 (modifyKind m j F) :=
  ⟨by rw [modifyKind_symLen]; exact hb.symLen,
    by rw [modifyKind_scopes]; exact hb.scLen,
    fun i h => by
      rw [modifyKind_symAt_ne m j F (show i ≠ j by omega)]
      exact hb.symPres i h,
    fun s h => by rw [scopeAt, scopeAt, modifyKind_scopes]; exact hb.scPar s h,
    fun h => INV_modifyKind _ _ _ (hb.inv h)⟩

theorem bstep_addToScope_fresh {m0 m : Module} (scope p : Nat) (hoist : Bool)
    (hb : BStep m0 m) (hfresh : m0.symbols.length ≤ p)
    (hps : (symAt m p).map SymbolData.parentScope = some none) :
    BStep m0 (m.addToScope scope p hoist) :=
  ⟨by rw [addToScope_symLen]; exact hb.symLen,
    by rw [addToScope_scLen]; exact hb.scLen,
    fun i h => by
      rw [addToScope_symAt_ne m scope p hoist (show i ≠ p by omega)]
      exact hb.symPres i h,
    fun s h => (addToScope_scPar m scope p hoist s).trans (hb.scPar s h),
    fun h => INV_addToScope m scope p hoist (hb.inv h) hps⟩

/-! ## What lowering one expression guarantees -/

def condSyms (brs : List (Option Nat × Nat)) : List Nat :=
  brs.filterMap Prod.fst

/-- The child symbol handles stored in a symbol kind: operands, elements,
arguments, segments, object field values, switch arm sides, import alias and
path.  `If` branch conditions are kept separately (`condSyms`) because the
builder orders them differently. -/
def childSyms : SymbolKind → List Nat
  | .reference _ _ _ => []
  | .pathK segs => segs
  | .lit => []
  | .decl _ _ _ _ _ _ _ => []
  | .fnK _ _ _ _ => []
  | .block _ => []
  | .unary _ r => r.toList
  | .binary l _ r => l.toList ++ r.toList
  | .array vs => vs
  | .indexK b i => b.toList ++ i.toList
  | .object fs => fs.filterMap Prod.snd
  | .call l args => l.toList ++ args
  | .closure _ e => e.toList
  | .ifK _ => []
  | .loopK _ => []
  | .forK it _ => it.toList
  | .whileK _ c => c.toList
  | .breakK e => e.toList
  | .continueK => []
  | .switchK t arms => t.toList ++ arms.flatMap (fun a => a.1.toList ++ a.2.toList)
  | .returnK e => e.toList
  | .discard => []
  | .importK a e => a.toList ++ e.toList

/-- Arena-order relation between a symbol and its children: every stored
child handle precedes the parent handle, except that an `If` symbol
precedes its branch-condition handles. -/
def childOk (p : Nat) (k : SymbolKind) : Prop :=
  (∀ c ∈ childSyms k, c < p) ∧
  (∀ brs, k = SymbolKind.ifK brs → ∀ c ∈ condSyms brs, p < c)

/-- The hoist flag an expression's produced symbol is attached with:
`true` for `Fn`, `Import` and `Switch`, `false` for everything else; a
parenthesis passes through to its inner expression. -/
def Expr.hoistAttach : Expr → Bool
  | .identE _ => false
  | .pathE _ => false
  | .litE => false
  | .letE _ _ => false
  | .constE _ _ => false
  | .blockE _ => false
  | .unaryE _ _ => false
  | .binaryE _ _ _ => false
  | .parenE none => false
  | .parenE (some e) => Expr.hoistAttach e
  | .arrayE _ => false
  | .indexE _ _ => false
  | .objectE _ => false
  | .callE _ _ => false
  | .closureE _ _ => false
  | .ifE _ => false
  | .loopE _ => false
  | .forE _ _ _ => false
  | .whileE _ _ => false
  | .breakE _ => false
  | .continueE => false
  | .switchE _ _ => true
  | .returnE _ => false
  | .fnE _ _ _ => true
  | .importE _ _ => true

/-- The symbol kinds the builder attaches with `hoist = true`. -/
def kindHoist : SymbolKind → Bool
  | .fnK _ _ _ _ => true
  | .switchK _ _ => true
  | .importK _ _ => true
  | _ => false

def ExprOut (m : Module) (scope : Nat) (hf : Bool) (out : Module × Option Nat) :
    Prop :=
  BStep m out.1 ∧
  ∀ p, out.2 = some p →
    m.symbols.length ≤ p ∧ p < out.1.symbols.length ∧
    (∃ d, symAt out.1 p = some d ∧ d.parentScope = some scope ∧
      childOk p d.kind ∧ kindHoist d.kind = hf) ∧
    (INV m →
      (if hf then p ∈ hoistedOf out.1 scope ∧ p ∉ plainOf out.1 scope
       else p ∈ plainOf out.1 scope ∧ p ∉ hoistedOf out.1 scope))

theorem exprOut_none {m : Module} {scope : Nat} {hf : Bool} :
    ExprOut m scope hf (m, none) :=
  ⟨BStep.rfl m, fun p hp => by cases hp⟩

/-- The closing `insert`+`add_to_scope` pair shared by most arms. -/
theorem finish_exprOut {m m1 : Module} {scope : Nat} (k : SymbolKind) (hoist : Bool)
    (hb : BStep m m1) (hs : scope < m.scopes.length)
    (hch : ∀ c ∈ childSyms k, c < m1.symbols.length)
    (hif : ∀ brs, k = SymbolKind.ifK brs →
      ∀ c ∈ condSyms brs, m1.symbols.length < c)
    (hk : kindHoist k = hoist) :
    ExprOut m scope hoist
      (Module.addToScope (m1.insertSymbol k).1 scope (m1.insertSymbol k).2 hoist,
        some (m1.insertSymbol k).2) := by
  have hpsym : symAt (m1.insertSymbol k).1 m1.symbols.length = some ⟨none, k⟩ :=
    insertSymbol_symAt_self m1 k
  have hps : (symAt (m1.insertSymbol k).1 m1.symbols.length).map
      SymbolData.parentScope = some none := by rw [hpsym]; rfl
  have hbi : BStep m (m1.insertSymbol k).1 := hb.trans (bstep_insertSymbol m1 k)
  have hfinal : BStep m _ :=
    bstep_addToScope_fresh scope m1.symbols.length hoist hbi hb.symLen hps
  rw [insertSymbol_snd]
  refine ⟨hfinal, ?_⟩
  intro q hq
  have hq2 : q = m1.symbols.length := by cases hq; rfl
  subst hq2
  refine ⟨hb.symLen, ?_, ?_, ?_⟩
  · rw [addToScope_symLen, insertSymbol_symLen]; omega
  · refine ⟨⟨some scope, k⟩, ?_, rfl, ⟨?_, ?_⟩, hk⟩
    · rw [addToScope_symAt_self, hpsym]; rfl
    · intro c hc; exact hch c hc
    · intro brs hbrs c hc; exact hif brs hbrs c hc
  · intro hInv
    have hscl : m.scopes.length ≤ m1.scopes.length := hb.scLen
    have hsc1 : scope < (m1.insertSymbol k).1.scopes.length := by
      rw [insertSymbol_scopes]; omega
    obtain ⟨sd, hsd⟩ := scopeAt_of_lt hsc1
    have hInv1 : INV (m1.insertSymbol k).1 := hbi.inv hInv
    have hnot : m1.symbols.length ∉ scopeMembers sd :=
      notmem_of_parentScope_none hInv1 hps hsd
    have hself := addToScope_scopeAt_self (m1.insertSymbol k).1 scope
      m1.symbols.length hoist
    rw [hsd] at hself
    cases hoist
    · simp only [Bool.false_eq_true, if_false]
      constructor
      · rw [plainOf, hself]
        simp
      · rw [hoistedOf, hself]
        simp only [Option.map_some', Option.getD_some, Bool.false_eq_true,
          if_false]
        intro hmem
        exact hnot (by simp [scopeMembers, hmem])
    · simp only [if_true]
      constructor
      · rw [hoistedOf, hself]
        simp
      · rw [plainOf, hself]
        simp only [Option.map_some', Option.getD_some, if_true]
        intro hmem
        exact hnot (by simp [scopeMembers, hmem])

/-- Variant of `finish_exprOut` for the arms that adopt a freshly created
scope (`let`/`const` value scopes, `Loop`/`For`/`While` body scopes) between
inserting the symbol and attaching it:
`insert k; set_as_parent_symbol(p, sc); add_to_scope(scope, p, hoist)`. -/
theorem finish2_exprOut {m m1 : Module} {scope : Nat} (k : SymbolKind)
    (hoist : Bool) (sc : Nat)
    (hb : BStep m m1) (hs : scope < m.scopes.length)
    (hscFresh : m.scopes.length ≤ sc)
    (hch : ∀ c ∈ childSyms k, c < m1.symbols.length)
    (hif : ∀ brs, k = SymbolKind.ifK brs →
      ∀ c ∈ condSyms brs, m1.symbols.length < c)
    (hk : kindHoist k = hoist) :
    ExprOut m scope hoist
      (Module.addToScope
        (Module.setAsParentSymbol (m1.insertSymbol k).1 (m1.insertSymbol k).2 sc)
        scope (m1.insertSymbol k).2 hoist,
        some (m1.insertSymbol k).2) ∧
    (sc < m1.scopes.length →
      (scopeAt
        (Module.addToScope
          (Module.setAsParentSymbol (m1.insertSymbol k).1 (m1.insertSymbol k).2 sc)
          scope (m1.insertSymbol k).2 hoist) sc).map ScopeData.parentSymbol
        = some (some (m1.insertSymbol k).2)) := by
  have hpsym : symAt (m1.insertSymbol k).1 m1.symbols.length = some ⟨none, k⟩ :=
    insertSymbol_symAt_self m1 k
  have hbi : BStep m (m1.insertSymbol k).1 := hb.trans (bstep_insertSymbol m1 k)
  have hbp : BStep m
      (Module.setAsParentSymbol (m1.insertSymbol k).1 m1.symbols.length sc) :=
    bstep_setParent_fresh m1.symbols.length sc hbi hscFresh
  have hpsym2 : symAt
      (Module.setAsParentSymbol (m1.insertSymbol k).1 m1.symbols.length sc)
      m1.symbols.length = some ⟨none, k⟩ := by
    rw [setParent_symAt]; exact hpsym
  have hps : (symAt
      (Module.setAsParentSymbol (m1.insertSymbol k).1 m1.symbols.length sc)
      m1.symbols.length).map SymbolData.parentScope = some none := by
    rw [hpsym2]; rfl
  have hfinal : BStep m _ :=
    bstep_addToScope_fresh scope m1.symbols.length hoist hbp hb.symLen hps
  rw [insertSymbol_snd]
  constructor
  · refine ⟨hfinal, ?_⟩
    intro q hq
    have hq2 : q = m1.symbols.length := by cases hq; rfl
    subst hq2
    refine ⟨hb.symLen, ?_, ?_, ?_⟩
    · rw [addToScope_symLen, setParent_symbols, insertSymbol_symLen]; omega
    · refine ⟨⟨some scope, k⟩, ?_, rfl, ⟨?_, ?_⟩, hk⟩
      · rw [addToScope_symAt_self, hpsym2]; rfl
      · intro c hc; exact hch c hc
      · intro brs hbrs c hc; exact hif brs hbrs c hc
    · intro hInv
      have hscl : m.scopes.length ≤ m1.scopes.length := hb.scLen
      have hsne : scope ≠ sc := by omega
      have hsc1 : scope <
          (Module.setAsParentSymbol (m1.insertSymbol k).1 m1.symbols.length sc).scopes.length := by
        rw [setParent_scLen, insertSymbol_scopes]; omega
      obtain ⟨sd, hsd⟩ := scopeAt_of_lt hsc1
      have hInv1 : INV
          (Module.setAsParentSymbol (m1.insertSymbol k).1 m1.symbols.length sc) :=
        hbp.inv hInv
      have hnot : m1.symbols.length ∉ scopeMembers sd :=
        notmem_of_parentScope_none hInv1 hps hsd
      have hself := addToScope_scopeAt_self
        (Module.setAsParentSymbol (m1.insertSymbol k).1 m1.symbols.length sc)
        scope m1.symbols.length hoist
      rw [hsd] at hself
      cases hoist
      · simp only [Bool.false_eq_true, if_false]
        constructor
        · rw [plainOf, hself]; simp
        · rw [hoistedOf, hself]
          simp only [Option.map_some', Option.getD_some, Bool.false_eq_true,
            if_false]
          intro hmem
          exact hnot (by simp [scopeMembers, hmem])
      · simp only [if_true]
        constructor
        · rw [hoistedOf, hself]; simp
        · rw [plainOf, hself]
          simp only [Option.map_some', Option.getD_some, if_true]
          intro hmem
          exact hnot (by simp [scopeMembers, hmem])
  · intro hscValid
    rw [addToScope_scPar]
    have hsv : sc < (m1.insertSymbol k).1.scopes.length := by
      rw [insertSymbol_scopes]; exact hscValid
    obtain ⟨sd0, hsd0⟩ := scopeAt_of_lt hsv
    rw [setParent_scopeAt_self, hsd0]
    rfl

/-- Variant for the `Fn` arm, where `add_to_scope` runs *before*
`set_as_parent_symbol`. -/
theorem finish3_exprOut {m m1 : Module} {scope : Nat} (k : SymbolKind)
    (hoist : Bool) (sc : Nat)
    (hb : BStep m m1) (hs : scope < m.scopes.length)
    (hscFresh : m.scopes.length ≤ sc)
    (hch : ∀ c ∈ childSyms k, c < m1.symbols.length)
    (hif : ∀ brs, k = SymbolKind.ifK brs →
      ∀ c ∈ condSyms brs, m1.symbols.length < c)
    (hk : kindHoist k = hoist) :
    ExprOut m scope hoist
      (Module.setAsParentSymbol
        (Module.addToScope (m1.insertSymbol k).1 scope (m1.insertSymbol k).2 hoist)
        (m1.insertSymbol k).2 sc,
        some (m1.insertSymbol k).2) ∧
    (sc < m1.scopes.length →
      (scopeAt
        (Module.setAsParentSymbol
          (Module.addToScope (m1.insertSymbol k).1 scope (m1.insertSymbol k).2 hoist)
          (m1.insertSymbol k).2 sc) sc).map ScopeData.parentSymbol
        = some (some (m1.insertSymbol k).2)) := by
  have hfin := finish_exprOut k hoist hb hs hch hif hk
  obtain ⟨hfb, hfp⟩ := hfin
  have hscl : m.scopes.length ≤ m1.scopes.length := hb.scLen
  have hsne : scope ≠ sc := by omega
  have hbF : BStep m
      (Module.setAsParentSymbol
        (Module.addToScope (m1.insertSymbol k).1 scope (m1.insertSymbol k).2 hoist)
        (m1.insertSymbol k).2 sc) :=
    bstep_setParent_fresh _ sc hfb hscFresh
  have hscEq : scopeAt
      (Module.setAsParentSymbol
        (Module.addToScope (m1.insertSymbol k).1 scope (m1.insertSymbol k).2 hoist)
        (m1.insertSymbol k).2 sc) scope
      = scopeAt
        (Module.addToScope (m1.insertSymbol k).1 scope (m1.insertSymbol k).2 hoist)
        scope :=
    setParent_scopeAt_ne _ _ _ hsne
  constructor
  · refine ⟨hbF, ?_⟩
    intro q hq
    obtain ⟨hq1, hq2, ⟨d, hd, hdps, hdok⟩, hmem⟩ := hfp q hq
    refine ⟨hq1, ?_, ⟨d, ?_, hdps, hdok⟩, ?_⟩
    · rw [setParent_symbols]; exact hq2
    · rw [setParent_symAt]; exact hd
    · intro hInv
      have := hmem hInv
      simp only [plainOf, hoistedOf, hscEq]
      exact this
  · intro hscValid
    have hsv : sc <
        (Module.addToScope (m1.insertSymbol k).1 scope (m1.insertSymbol k).2
          hoist).scopes.length := by
      rw [addToScope_scLen, insertSymbol_scopes]; exact hscValid
    obtain ⟨sd0, hsd0⟩ := scopeAt_of_lt hsv
    rw [setParent_scopeAt_self, hsd0]
    rfl


theorem bstep_insert_attach (m : Module) (k : SymbolKind) (scope : Nat)
    (hoist : Bool) :
    BStep m
      (Module.addToScope (m.insertSymbol k).1 scope (m.insertSymbol k).2 hoist) := by
  have hpsym : symAt (m.insertSymbol k).1 m.symbols.length = some ⟨none, k⟩ :=
    insertSymbol_symAt_self m k
  have hps : (symAt (m.insertSymbol k).1 m.symbols.length).map
      SymbolData.parentScope = some none := by rw [hpsym]; rfl
  rw [insertSymbol_snd]
  exact bstep_addToScope_fresh scope m.symbols.length hoist
    (bstep_insertSymbol m k) (Nat.le_refl _) hps

theorem addParams_ok (ps : List (Option String)) :
    ∀ (m : Module) (paramScope : Nat),
      BStep m (addParams m paramScope ps) := by
  induction ps with
  | nil => intro m paramScope; exact BStep.rfl m
  | cons tok rest ih =>
    intro m paramScope
    simp only [addParams]
    exact (bstep_insert_attach m _ paramScope false).trans (ih _ paramScope)

theorem addParamsOpt_ok (ps : Option (List (Option String))) (m : Module)
    (paramScope : Nat) : BStep m (addParamsOpt m paramScope ps) := by
  cases ps with
  | none => exact BStep.rfl m
  | some l => exact addParams_ok l m paramScope

theorem addPatIdents_ok (idents : List String) :
    ∀ (m : Module) (forScope : Nat),
      BStep m (addPatIdents m forScope idents) := by
  induction idents with
  | nil => intro m forScope; exact BStep.rfl m
  | cons n rest ih =>
    intro m forScope
    simp only [addPatIdents]
    exact (bstep_insert_attach m _ forScope false).trans (ih _ forScope)

theorem addPatIdentsOpt_ok (idents : Option (List String)) (m : Module)
    (forScope : Nat) : BStep m (addPatIdentsOpt m forScope idents) := by
  cases idents with
  | none => exact BStep.rfl m
  | some l => exact addPatIdents_ok l m forScope

theorem addPathSegments_ok (segs : List String) :
    ∀ (m : Module) (scope : Nat),
      BStep m (addPathSegments m scope segs).1 ∧
      ∀ x ∈ (addPathSegments m scope segs).2,
        m.symbols.length ≤ x ∧ x < (addPathSegments m scope segs).1.symbols.length := by
  induction segs with
  | nil =>
    intro m scope
    exact ⟨BStep.rfl m, by intro x hx; cases hx⟩
  | cons seg rest ih =>
    intro m scope
    simp only [addPathSegments]
    have hstep := bstep_insert_attach m (SymbolKind.reference seg true none) scope false
    obtain ⟨ihb, ihx⟩ := ih
      (Module.addToScope (m.insertSymbol (SymbolKind.reference seg true none)).1
        scope (m.insertSymbol (SymbolKind.reference seg true none)).2 false) scope
    refine ⟨hstep.trans ihb, ?_⟩
    intro x hx
    have hlen1 : (Module.addToScope
        (m.insertSymbol (SymbolKind.reference seg true none)).1 scope
        (m.insertSymbol (SymbolKind.reference seg true none)).2 false).symbols.length
        = m.symbols.length + 1 := by
      rw [addToScope_symLen, insertSymbol_symLen]
    rcases List.mem_cons.mp hx with hx1 | hx2
    · subst hx1
      have hx0 : (m.insertSymbol (SymbolKind.reference seg true none)).2
          = m.symbols.length := insertSymbol_snd m _
      have hsl := ihb.symLen
      rw [hlen1] at hsl
      exact ⟨by omega, by omega⟩
    · obtain ⟨ha, hb⟩ := ihx x hx2
      rw [hlen1] at ha
      exact ⟨by omega, hb⟩

/-- Generalisation of `finish_exprOut`: attach an already-inserted fresh
symbol `p` (present with null parent scope in `m4`) to `scope`.  Used by the
`Block` and `If` arms, whose attach runs after further lowering. -/
theorem attach_exprOut {m m4 : Module} {scope p : Nat} (k : SymbolKind)
    (hoist : Bool)
    (hb4 : BStep m m4) (hs : scope < m.scopes.length)
    (hplen : m.symbols.length ≤ p)
    (hpsym : symAt m4 p = some ⟨none, k⟩)
    (hch : ∀ c ∈ childSyms k, c < p)
    (hif : ∀ brs, k = SymbolKind.ifK brs → ∀ c ∈ condSyms brs, p < c)
    (hk : kindHoist k = hoist) :
    ExprOut m scope hoist (m4.addToScope scope p hoist, some p) := by
  have hps : (symAt m4 p).map SymbolData.parentScope = some none := by
    rw [hpsym]; rfl
  have hplt : p < m4.symbols.length := symAt_lt_of_some hpsym
  have hfinal : BStep m (m4.addToScope scope p hoist) :=
    bstep_addToScope_fresh scope p hoist hb4 hplen hps
  refine ⟨hfinal, ?_⟩
  intro q hq
  have hq2 : q = p := by cases hq; rfl
  rw [hq2]
  refine ⟨hplen, ?_, ?_, ?_⟩
  · rw [addToScope_symLen]; exact hplt
  · refine ⟨⟨some scope, k⟩, ?_, rfl, ⟨hch, hif⟩, hk⟩
    rw [addToScope_symAt_self, hpsym]
    rfl
  · intro hInv
    have hscl : m.scopes.length ≤ m4.scopes.length := hb4.scLen
    have hsc1 : scope < m4.scopes.length := by omega
    obtain ⟨sd, hsd⟩ := scopeAt_of_lt hsc1
    have hInv1 : INV m4 := hb4.inv hInv
    have hnot : p ∉ scopeMembers sd := notmem_of_parentScope_none hInv1 hps hsd
    have hself := addToScope_scopeAt_self m4 scope p hoist
    rw [hsd] at hself
    cases hoist
    · simp only [Bool.false_eq_true, if_false]
      constructor
      · rw [plainOf, hself]; simp
      · rw [hoistedOf, hself]
        simp only [Option.map_some', Option.getD_some, Bool.false_eq_true,
          if_false]
        intro hmem
        exact hnot (by simp [scopeMembers, hmem])
    · simp only [if_true]
      constructor
      · rw [hoistedOf, hself]; simp
      · rw [plainOf, hself]
        simp only [Option.map_some', Option.getD_some, if_true]
        intro hmem
        exact hnot (by simp [scopeMembers, hmem])

/-- What one `If`-branch push (and, composed, the whole `if` loop)
guarantees: arena growth, preservation away from the `If` symbol, invariant
preservation, and the appended branches with their condition handles fresh
relative to the starting state. -/
def IfStepOut (m : Module) (symbol : Nat) (mq : Module) (ps : Option Nat)
    (brs newBrs : List (Option Nat × Nat)) : Prop :=
  m.symbols.length ≤ mq.symbols.length ∧
  m.scopes.length ≤ mq.scopes.length ∧
  (∀ i, i < m.symbols.length → i ≠ symbol → symAt mq i = symAt m i) ∧
  (∀ s, s < m.scopes.length →
    (scopeAt mq s).map ScopeData.parentSymbol
      = (scopeAt m s).map ScopeData.parentSymbol) ∧
  (INV m → INV mq) ∧
  symAt mq symbol = some ⟨ps, .ifK (brs ++ newBrs)⟩ ∧
  (∀ pr ∈ newBrs, ∀ c, pr.1 = some c →
    m.symbols.length ≤ c ∧ c < mq.symbols.length)

theorem ifStepOut_trans {m m5 mq : Module} {symbol : Nat} {ps : Option Nat}
    {brs nb1 nb2 : List (Option Nat × Nat)}
    (a : IfStepOut m symbol m5 ps brs nb1)
    (b : IfStepOut m5 symbol mq ps (brs ++ nb1) nb2) :
    IfStepOut m symbol mq ps brs (nb1 ++ nb2) := by
  obtain ⟨a1, a2, a3, a4, a5, a6, a7⟩ := a
  obtain ⟨b1, b2, b3, b4, b5, b6, b7⟩ := b
  refine ⟨Nat.le_trans a1 b1, Nat.le_trans a2 b2, ?_, ?_, fun h => b5 (a5 h),
    ?_, ?_⟩
  · intro i hi hne
    exact (b3 i (by omega) hne).trans (a3 i hi hne)
  · intro s hsv
    exact (b4 s (by omega)).trans (a4 s hsv)
  · rw [← List.append_assoc]
    exact b6
  · intro pr hpr c hc
    rcases List.mem_append.mp hpr with h1 | h2
    · obtain ⟨c1, c2⟩ := a7 pr h1 c hc
      exact ⟨c1, by omega⟩
    · obtain ⟨c1, c2⟩ := b7 pr h2 c hc
      exact ⟨by omega, c2⟩


/-- Every value stored in an `indexMapInsert` result is either the inserted
value or one already present. -/
theorem indexMapInsert_mem {α : Type} (l : List (String × α)) (k : String)
    (v : α) (pr : String × α) (h : pr ∈ indexMapInsert l k v) :
    pr.2 = v ∨ ∃ pr2 ∈ l, pr.2 = pr2.2 := by
  simp only [indexMapInsert] at h
  by_cases hc : l.any (fun kv => kv.1 == k)
  · rw [if_pos hc] at h
    obtain ⟨kv, hkv, hmap⟩ := List.mem_map.mp h
    by_cases hk : (kv.1 == k) = true
    · rw [if_pos hk] at hmap
      left
      rw [← hmap]
    · rw [if_neg hk] at hmap
      right
      exact ⟨kv, hkv, by rw [← hmap]⟩
  · rw [if_neg hc] at h
    rcases List.mem_append.mp h with h1 | h1
    · right
      exact ⟨pr, h1, rfl⟩
    · left
      have h2 : pr = (k, v) := List.mem_singleton.mp h1
      rw [h2]

theorem indexMapFoldl_mem {α : Type} (ps : List (String × α)) :
    ∀ (acc : List (String × α)) (pr : String × α),
      pr ∈ ps.foldl (fun acc2 kv => indexMapInsert acc2 kv.1 kv.2) acc →
      (∃ pr2 ∈ acc, pr.2 = pr2.2) ∨ ∃ pr2 ∈ ps, pr.2 = pr2.2 := by
  induction ps with
  | nil =>
    intro acc pr h
    left
    exact ⟨pr, h, rfl⟩
  | cons kv t ih =>
    intro acc pr h
    rw [List.foldl_cons] at h
    rcases ih _ pr h with h1 | h1
    · obtain ⟨pr2, hpr2, hval⟩ := h1
      rcases indexMapInsert_mem acc kv.1 kv.2 pr2 hpr2 with h2 | h2
      · right
        exact ⟨kv, List.mem_cons_self kv t, by rw [hval, h2]⟩
      · obtain ⟨pr3, hpr3, hval3⟩ := h2
        left
        exact ⟨pr3, hpr3, by rw [hval, hval3]⟩
    · obtain ⟨pr2, hpr2, hval⟩ := h1
      right
      exact ⟨pr2, List.mem_cons_of_mem kv hpr2, hval⟩

/-- Every value of the collected object field map is the value of one of
the lowered field pairs. -/
theorem indexMapFromPairs_mem {α : Type} (ps : List (String × α))
    (pr : String × α) (h : pr ∈ indexMapFromPairs ps) :
    ∃ pr2 ∈ ps, pr.2 = pr2.2 := by
  simp only [indexMapFromPairs] at h
  rcases indexMapFoldl_mem ps [] pr h with h1 | h1
  · obtain ⟨pr2, hpr2, _⟩ := h1
    cases hpr2
  · exact h1

/-- Assembling one switch-arm iteration from facts about its (possibly
skipped) pattern and value lowering and the remaining arms. -/
theorem switchArms_cons_ok {m M2 M3 : Module} {o2 o3 : Option Nat}
    {restOut : Module × List (Option Nat × Option Nat)}
    (hb2 : BStep m M2)
    (ho2 : ∀ c, o2 = some c → m.symbols.length ≤ c ∧ c < M2.symbols.length)
    (hb3 : BStep M2 M3)
    (ho3 : ∀ c, o3 = some c → m.symbols.length ≤ c ∧ c < M3.symbols.length)
    (hbR : BStep M3 restOut.1)
    (hxR : ∀ pr ∈ restOut.2, ∀ x ∈ pr.1.toList ++ pr.2.toList,
      M3.symbols.length ≤ x ∧ x < restOut.1.symbols.length) :
    BStep m restOut.1 ∧
    ∀ pr ∈ (o2, o3) :: restOut.2, ∀ x ∈ pr.1.toList ++ pr.2.toList,
      m.symbols.length ≤ x ∧ x < restOut.1.symbols.length := by
  refine ⟨hb2.trans (hb3.trans hbR), ?_⟩
  intro pr hpr x hx
  have hlr := hbR.symLen
  have hl3 := hb3.symLen
  have hl2 := hb2.symLen
  rcases List.mem_cons.mp hpr with h1 | h2
  · subst h1
    simp only [List.mem_append, Option.mem_toList, Option.mem_def] at hx
    rcases hx with h | h
    · obtain ⟨c1, c2⟩ := ho2 x h
      exact ⟨c1, by omega⟩
    · obtain ⟨c1, c2⟩ := ho3 x h
      exact ⟨c1, by omega⟩
  · obtain ⟨c1, c2⟩ := hxR pr h2 x hx
    exact ⟨by omega, c2⟩

/-! ## The main correctness development for the builder

One mutual induction mirroring the recursion of `add_expression` and its
companions.  `addExpression_ok` is the workhorse: every lowered expression
yields a `BStep` and, when a symbol is produced, its freshness, back-edge,
child ordering (`childOk`) and attachment set (per the hoist flag). -/

set_option maxHeartbeats 2000000

mutual

theorem addExpression_ok (m : Module) (scope : Nat) (e : Expr)
    (hs : scope < m.scopes.length) :
    ExprOut m scope e.hoistAttach (addExpression m scope e) := by
  cases e with
  | identE tok =>
    simp only [addExpression, Expr.hoistAttach]
    exact finish_exprOut _ false (BStep.rfl m) hs
      (by intro c hc; simp [childSyms] at hc)
      (by intro brs h; cases h) rfl
  | pathE segments =>
    cases segments with
    | none =>
      simp only [addExpression, Expr.hoistAttach]
      exact exprOut_none
    | some segs =>
      obtain ⟨hb1, hx1⟩ := addPathSegments_ok segs m scope
      simp only [addExpression, Expr.hoistAttach]
      refine finish_exprOut _ false hb1 hs ?_ ?_ rfl
      · intro c hc
        simp only [childSyms] at hc
        exact (hx1 c hc).2
      · intro brs h; cases h
  | litE =>
    simp only [addExpression, Expr.hoistAttach]
    exact finish_exprOut _ false (BStep.rfl m) hs
      (by intro c hc; simp [childSyms] at hc)
      (by intro brs h; cases h) rfl
  | letE tok value =>
    cases value with
    | none =>
      simp only [addExpression, Expr.hoistAttach]
      exact finish_exprOut _ false (BStep.rfl m) hs
        (by intro c hc; simp [childSyms] at hc)
        (by intro brs h; cases h) rfl
    | some e =>
      have hsv : (m.createScope none).2 < (m.createScope none).1.scopes.length := by
        rw [createScope_snd, createScope_scLen]; omega
      have hexp := addExpression_ok (m.createScope none).1 (m.createScope none).2 e hsv
      have hb1 : BStep m
          (addExpression (m.createScope none).1 (m.createScope none).2 e).1 :=
        (bstep_createScope m none).trans hexp.1
      simp only [addExpression, Expr.hoistAttach]
      exact (finish2_exprOut _ false (m.createScope none).2 hb1 hs
        (Nat.le_of_eq (createScope_snd m none).symm)
        (by intro c hc; simp [childSyms] at hc)
        (by intro brs h; cases h) (by rfl)).1
  | constE tok value =>
    cases value with
    | none =>
      simp only [addExpression, Expr.hoistAttach]
      exact finish_exprOut _ false (BStep.rfl m) hs
        (by intro c hc; simp [childSyms] at hc)
        (by intro brs h; cases h) rfl
    | some e =>
      have hsv : (m.createScope none).2 < (m.createScope none).1.scopes.length := by
        rw [createScope_snd, createScope_scLen]; omega
      have hexp := addExpression_ok (m.createScope none).1 (m.createScope none).2 e hsv
      have hb1 : BStep m
          (addExpression (m.createScope none).1 (m.createScope none).2 e).1 :=
        (bstep_createScope m none).trans hexp.1
      simp only [addExpression, Expr.hoistAttach]
      exact (finish2_exprOut _ false (m.createScope none).2 hb1 hs
        (Nat.le_of_eq (createScope_snd m none).symm)
        (by intro c hc; simp [childSyms] at hc)
        (by intro brs h; cases h) (by rfl)).1
  | blockE statements =>
    have hbi : BStep m
        ((m.createScope none).1.insertSymbol (.block scope)).1 :=
      (bstep_createScope m none).trans (bstep_insertSymbol _ _)
    have hfr : m.scopes.length ≤ (m.createScope none).2 :=
      Nat.le_of_eq (createScope_snd m none).symm
    have hbp : BStep m
        (((m.createScope none).1.insertSymbol (.block scope)).1.setAsParentSymbol
          ((m.createScope none).1.insertSymbol (.block scope)).2
          (m.createScope none).2) :=
      bstep_setParent_fresh _ _ hbi hfr
    have hsv : (m.createScope none).2 <
        (((m.createScope none).1.insertSymbol (.block scope)).1.setAsParentSymbol
          ((m.createScope none).1.insertSymbol (.block scope)).2
          (m.createScope none).2).scopes.length := by
      rw [setParent_scLen, insertSymbol_scopes, createScope_scLen, createScope_snd]
      omega
    have hstm := addStatements_ok _ _ statements hsv
    have hb4 : BStep m _ := hbp.trans hstm
    have hlt : ((m.createScope none).1.insertSymbol (.block scope)).2 <
        (((m.createScope none).1.insertSymbol (.block scope)).1.setAsParentSymbol
          ((m.createScope none).1.insertSymbol (.block scope)).2
          (m.createScope none).2).symbols.length := by
      rw [setParent_symbols, insertSymbol_symLen, insertSymbol_snd,
        createScope_symbols]
      omega
    have hp4 : symAt
        (addStatements
          (((m.createScope none).1.insertSymbol (.block scope)).1.setAsParentSymbol
            ((m.createScope none).1.insertSymbol (.block scope)).2
            (m.createScope none).2)
          (m.createScope none).2 statements)
        ((m.createScope none).1.insertSymbol (.block scope)).2
        = some ⟨none, .block scope⟩ := by
      rw [hstm.symPres _ hlt, setParent_symAt]
      exact insertSymbol_symAt_self _ _
    have hplen : m.symbols.length ≤
        ((m.createScope none).1.insertSymbol (.block scope)).2 := by
      rw [insertSymbol_snd, createScope_symbols]
    simp only [addExpression, Expr.hoistAttach]
    exact attach_exprOut (.block scope) false hb4 hs hplen hp4
      (by intro c hc; simp [childSyms] at hc)
      (by intro brs h; cases h) rfl
  | unaryE op rhs =>
    obtain ⟨hb1, hr1⟩ := addExprOpt_ok m scope rhs hs
    simp only [addExpression, Expr.hoistAttach]
    refine finish_exprOut _ false hb1 hs ?_ ?_ rfl
    · intro c hc
      simp only [childSyms, Option.mem_toList, Option.mem_def] at hc
      exact (hr1 c hc).2
    · intro brs h; cases h
  | binaryE lhs op rhs =>
    obtain ⟨hb1, hr1⟩ := addExprOpt_ok m scope lhs hs
    have hs2 : scope < (addExprOpt m scope lhs).1.scopes.length :=
      Nat.lt_of_lt_of_le hs hb1.scLen
    obtain ⟨hb2, hr2⟩ := addExprOpt_ok (addExprOpt m scope lhs).1 scope rhs hs2
    simp only [addExpression, Expr.hoistAttach]
    refine finish_exprOut _ false (hb1.trans hb2) hs ?_ ?_ rfl
    · intro c hc
      simp only [childSyms, List.mem_append, Option.mem_toList,
        Option.mem_def] at hc
      have hl2 := hb2.symLen
      rcases hc with h | h
      · have := (hr1 c h).2; omega
      · exact (hr2 c h).2
    · intro brs h; cases h
  | parenE inner =>
    cases inner with
    | none =>
      simp only [addExpression, Expr.hoistAttach]
      exact exprOut_none
    | some e =>
      simp only [addExpression, Expr.hoistAttach]
      exact addExpression_ok m scope e hs
  | arrayE values =>
    obtain ⟨hb1, hx1⟩ := addExprListCollect_ok m scope values hs
    simp only [addExpression, Expr.hoistAttach]
    refine finish_exprOut _ false hb1 hs ?_ ?_ rfl
    · intro c hc
      simp only [childSyms] at hc
      exact (hx1 c hc).2
    · intro brs h; cases h
  | indexE base idx =>
    obtain ⟨hb1, hr1⟩ := addExprOpt_ok m scope base hs
    have hs2 : scope < (addExprOpt m scope base).1.scopes.length :=
      Nat.lt_of_lt_of_le hs hb1.scLen
    obtain ⟨hb2, hr2⟩ := addExprOpt_ok (addExprOpt m scope base).1 scope idx hs2
    simp only [addExpression, Expr.hoistAttach]
    refine finish_exprOut _ false (hb1.trans hb2) hs ?_ ?_ rfl
    · intro c hc
      simp only [childSyms, List.mem_append, Option.mem_toList,
        Option.mem_def] at hc
      have hl2 := hb2.symLen
      rcases hc with h | h
      · have := (hr1 c h).2; omega
      · exact (hr2 c h).2
    · intro brs h; cases h
  | objectE fields =>
    obtain ⟨hb1, hx1⟩ := addObjectFields_ok m scope fields hs
    simp only [addExpression, Expr.hoistAttach]
    refine finish_exprOut _ false hb1 hs ?_ ?_ rfl
    · intro c hc
      simp only [childSyms, List.mem_filterMap] at hc
      obtain ⟨pr, hpr, hprc⟩ := hc
      obtain ⟨pr2, hpr2, hval⟩ := indexMapFromPairs_mem _ pr hpr
      exact (hx1 pr2 hpr2 c (by rw [← hval]; exact hprc)).2
    · intro brs h; cases h
  | callE callee argList =>
    cases argList with
    | none =>
      obtain ⟨hb1, hr1⟩ := addExprOpt_ok m scope callee hs
      simp only [addExpression, Expr.hoistAttach]
      refine finish_exprOut _ false hb1 hs ?_ ?_ rfl
      · intro c hc
        simp only [childSyms, List.mem_append, Option.mem_toList,
          Option.mem_def] at hc
        rcases hc with h | h
        · exact (hr1 c h).2
        · cases h
      · intro brs h; cases h
    | some l =>
      obtain ⟨hb1, hr1⟩ := addExprOpt_ok m scope callee hs
      have hs2 : scope < (addExprOpt m scope callee).1.scopes.length :=
        Nat.lt_of_lt_of_le hs hb1.scLen
      obtain ⟨hb2, hx2⟩ := addExprListCollect_ok (addExprOpt m scope callee).1
        scope l hs2
      simp only [addExpression, Expr.hoistAttach]
      refine finish_exprOut _ false (hb1.trans hb2) hs ?_ ?_ rfl
      · intro c hc
        simp only [childSyms, List.mem_append, Option.mem_toList,
          Option.mem_def] at hc
        have hl2 := hb2.symLen
        rcases hc with h | h
        · have := (hr1 c h).2; omega
        · exact (hx2 c h).2
      · intro brs h; cases h
  | closureE paramList body =>
    have hpp := addParamsOpt_ok paramList (m.createScope none).1
      (m.createScope none).2
    have hb2 : BStep m
        (addParamsOpt (m.createScope none).1 (m.createScope none).2 paramList) :=
      (bstep_createScope m none).trans hpp
    have hsv : (m.createScope none).2 <
        (addParamsOpt (m.createScope none).1 (m.createScope none).2
          paramList).scopes.length := by
      have h1 := hpp.scLen
      rw [createScope_scLen] at h1
      have h2 : (m.createScope none).2 = m.scopes.length := createScope_snd m none
      omega
    obtain ⟨hb3, hr3⟩ := addExprOpt_ok
      (addParamsOpt (m.createScope none).1 (m.createScope none).2 paramList)
      (m.createScope none).2 body hsv
    simp only [addExpression, Expr.hoistAttach]
    refine finish_exprOut _ false (hb2.trans hb3) hs ?_ ?_ rfl
    · intro c hc
      simp only [childSyms, Option.mem_toList, Option.mem_def] at hc
      exact (hr3 c hc).2
    · intro brs h; cases h
  | ifE chain =>
    have hsym1 : symAt (m.insertSymbol (.ifK [])).1 (m.insertSymbol (.ifK [])).2
        = some ⟨none, .ifK []⟩ := insertSymbol_symAt_self m _
    have hs1 : scope < (m.insertSymbol (.ifK [])).1.scopes.length := by
      rw [insertSymbol_scopes]; exact hs
    obtain ⟨newBrs, hIf⟩ := ifLoop_ok (m.insertSymbol (.ifK [])).1 scope
      (m.insertSymbol (.ifK [])).2 chain hs1 none [] hsym1
    obtain ⟨i1, i2, i3, i4, i5, i6, i7⟩ := hIf
    have hbi := bstep_insertSymbol m (SymbolKind.ifK [])
    have hne : ∀ i, i < m.symbols.length → i ≠ (m.insertSymbol (.ifK [])).2 := by
      intro i hi
      rw [insertSymbol_snd]
      omega
    have hb2 : BStep m
        (ifLoop (m.insertSymbol (.ifK [])).1 scope (m.insertSymbol (.ifK [])).2
          chain) := by
      refine ⟨Nat.le_trans hbi.symLen i1, Nat.le_trans hbi.scLen i2, ?_, ?_, ?_⟩
      · intro i hi
        rw [i3 i (Nat.lt_of_lt_of_le hi hbi.symLen) (hne i hi)]
        exact hbi.symPres i hi
      · intro s hsv
        rw [i4 s (Nat.lt_of_lt_of_le hsv hbi.scLen)]
        exact hbi.scPar s hsv
      · intro h
        exact i5 (hbi.inv h)
    have hp : symAt
        (ifLoop (m.insertSymbol (.ifK [])).1 scope (m.insertSymbol (.ifK [])).2
          chain) (m.insertSymbol (.ifK [])).2
        = some ⟨none, .ifK newBrs⟩ := by
      simpa using i6
    simp only [addExpression, Expr.hoistAttach]
    refine attach_exprOut (.ifK newBrs) false hb2 hs
      (Nat.le_of_eq (insertSymbol_snd m _).symm) hp ?_ ?_ rfl
    · intro c hc
      simp [childSyms] at hc
    · intro brs h c hc
      injection h with h2
      subst h2
      simp only [condSyms, List.mem_filterMap] at hc
      obtain ⟨pr, hpr, hprc⟩ := hc
      obtain ⟨c1, c2⟩ := i7 pr hpr c hprc
      have e1 : (m.insertSymbol (SymbolKind.ifK [])).1.symbols.length
          = m.symbols.length + 1 := insertSymbol_symLen m _
      have e2 : (m.insertSymbol (SymbolKind.ifK [])).2 = m.symbols.length :=
        insertSymbol_snd m _
      omega
  | loopE body =>
    have hso := addStmtsOpt_ok (m.createScope none).1 (m.createScope none).2
      body (by rw [createScope_snd, createScope_scLen]; omega)
    have hb1 : BStep m
        (addStmtsOpt (m.createScope none).1 (m.createScope none).2 body) :=
      (bstep_createScope m none).trans hso
    simp only [addExpression, Expr.hoistAttach]
    exact (finish2_exprOut _ false (m.createScope none).2 hb1 hs
      (Nat.le_of_eq (createScope_snd m none).symm)
      (by intro c hc; simp [childSyms] at hc)
      (by intro brs h; cases h) (by rfl)).1
  | forE pat iterable body =>
    have hpi := addPatIdentsOpt_ok pat (m.createScope none).1
      (m.createScope none).2
    have hb2 : BStep m
        (addPatIdentsOpt (m.createScope none).1 (m.createScope none).2 pat) :=
      (bstep_createScope m none).trans hpi
    have hsv : (m.createScope none).2 <
        (addPatIdentsOpt (m.createScope none).1 (m.createScope none).2
          pat).scopes.length := by
      have h1 := hpi.scLen
      rw [createScope_scLen] at h1
      have h2 : (m.createScope none).2 = m.scopes.length := createScope_snd m none
      omega
    have hso := addStmtsOpt_ok _ (m.createScope none).2 body hsv
    have hb3 : BStep m
        (addStmtsOpt
          (addPatIdentsOpt (m.createScope none).1 (m.createScope none).2 pat)
          (m.createScope none).2 body) :=
      hb2.trans hso
    have hsS : scope <
        (addStmtsOpt
          (addPatIdentsOpt (m.createScope none).1 (m.createScope none).2 pat)
          (m.createScope none).2 body).scopes.length :=
      Nat.lt_of_lt_of_le hs hb3.scLen
    obtain ⟨hbI, hrI⟩ := addExprOpt_ok _ scope iterable hsS
    simp only [addExpression, Expr.hoistAttach]
    refine (finish2_exprOut _ false (m.createScope none).2 (hb3.trans hbI) hs
      (Nat.le_of_eq (createScope_snd m none).symm) ?_
      (by intro brs h; cases h) (by rfl)).1
    · intro c hc
      simp only [childSyms, Option.mem_toList, Option.mem_def] at hc
      exact (hrI c hc).2
  | whileE cond body =>
    have hso := addStmtsOpt_ok (m.createScope none).1 (m.createScope none).2
      body (by rw [createScope_snd, createScope_scLen]; omega)
    have hb2 : BStep m
        (addStmtsOpt (m.createScope none).1 (m.createScope none).2 body) :=
      (bstep_createScope m none).trans hso
    have hsS : scope <
        (addStmtsOpt (m.createScope none).1 (m.createScope none).2
          body).scopes.length :=
      Nat.lt_of_lt_of_le hs hb2.scLen
    obtain ⟨hbC, hrC⟩ := addExprOpt_ok _ scope cond hsS
    simp only [addExpression, Expr.hoistAttach]
    refine (finish2_exprOut _ false (m.createScope none).2 (hb2.trans hbC) hs
      (Nat.le_of_eq (createScope_snd m none).symm) ?_
      (by intro brs h; cases h) (by rfl)).1
    · intro c hc
      simp only [childSyms, Option.mem_toList, Option.mem_def] at hc
      exact (hrC c hc).2
  | breakE value =>
    obtain ⟨hb1, hr1⟩ := addExprOpt_ok m scope value hs
    simp only [addExpression, Expr.hoistAttach]
    refine finish_exprOut _ false hb1 hs ?_ ?_ rfl
    · intro c hc
      simp only [childSyms, Option.mem_toList, Option.mem_def] at hc
      exact (hr1 c hc).2
    · intro brs h; cases h
  | continueE =>
    simp only [addExpression, Expr.hoistAttach]
    exact finish_exprOut _ false (BStep.rfl m) hs
      (by intro c hc; simp [childSyms] at hc)
      (by intro brs h; cases h) rfl
  | switchE target armList =>
    cases armList with
    | none =>
      obtain ⟨hb1, hr1⟩ := addExprOpt_ok m scope target hs
      simp only [addExpression, Expr.hoistAttach]
      refine finish_exprOut _ true hb1 hs ?_ ?_ rfl
      · intro c hc
        simp only [childSyms, List.flatMap_nil, List.append_nil,
          Option.mem_toList, Option.mem_def] at hc
        exact (hr1 c hc).2
      · intro brs h; cases h
    | some l =>
      obtain ⟨hb1, hr1⟩ := addExprOpt_ok m scope target hs
      have hs2 : scope < (addExprOpt m scope target).1.scopes.length :=
        Nat.lt_of_lt_of_le hs hb1.scLen
      obtain ⟨hb2, hx2⟩ := addSwitchArms_ok (addExprOpt m scope target).1
        scope l hs2
      simp only [addExpression, Expr.hoistAttach]
      refine finish_exprOut _ true (hb1.trans hb2) hs ?_ ?_ rfl
      · intro c hc
        simp only [childSyms, List.mem_append, Option.mem_toList,
          Option.mem_def, List.mem_flatMap] at hc
        have hl2 := hb2.symLen
        rcases hc with h | ⟨a, ha, hca⟩
        · have := (hr1 c h).2; omega
        · exact (hx2 a ha c (by
            simpa [List.mem_append, Option.mem_toList, Option.mem_def]
              using hca)).2
      · intro brs h; cases h
  | returnE value =>
    obtain ⟨hb1, hr1⟩ := addExprOpt_ok m scope value hs
    simp only [addExpression, Expr.hoistAttach]
    refine finish_exprOut _ false hb1 hs ?_ ?_ rfl
    · intro c hc
      simp only [childSyms, Option.mem_toList, Option.mem_def] at hc
      exact (hr1 c hc).2
    · intro brs h; cases h
  | fnE tok paramList body =>
    have hpp := addParamsOpt_ok paramList (m.createScope none).1
      (m.createScope none).2
    have hb2 : BStep m
        (addParamsOpt (m.createScope none).1 (m.createScope none).2 paramList) :=
      (bstep_createScope m none).trans hpp
    have hsS : scope <
        (addParamsOpt (m.createScope none).1 (m.createScope none).2
          paramList).scopes.length :=
      Nat.lt_of_lt_of_le hs hb2.scLen
    have hso := addStmtsOpt_ok _ scope body hsS
    have hb3 : BStep m
        (addStmtsOpt
          (addParamsOpt (m.createScope none).1 (m.createScope none).2 paramList)
          scope body) :=
      hb2.trans hso
    simp only [addExpression, Expr.hoistAttach]
    exact (finish3_exprOut _ true (m.createScope none).2 hb3 hs
      (Nat.le_of_eq (createScope_snd m none).symm)
      (by intro c hc; simp [childSyms] at hc)
      (by intro brs h; cases h) (by rfl)).1
  | importE aliasTok pathExpr =>
    cases aliasTok with
    | none =>
      obtain ⟨hbP, hrP⟩ := addExprOpt_ok m scope pathExpr hs
      simp only [addExpression, Expr.hoistAttach]
      refine finish_exprOut _ true hbP hs ?_ ?_ rfl
      · intro c hc
        simp only [childSyms, List.mem_append, Option.mem_toList,
          Option.mem_def, Option.toList_none, List.not_mem_nil] at hc
        rcases hc with h | h
        · cases h
        · exact (hrP c h).2
      · intro brs h; cases h
    | some a =>
      have hbA := bstep_insertSymbol m (.decl a "" false false false none [])
      have hsA : scope <
          (m.insertSymbol (.decl a "" false false false none [])).1.scopes.length := by
        rw [insertSymbol_scopes]; exact hs
      obtain ⟨hbP, hrP⟩ := addExprOpt_ok
        (m.insertSymbol (.decl a "" false false false none [])).1 scope
        pathExpr hsA
      simp only [addExpression, Expr.hoistAttach]
      refine finish_exprOut _ true (hbA.trans hbP) hs ?_ ?_ rfl
      · intro c hc
        simp only [childSyms, List.mem_append, Option.mem_toList,
          Option.mem_def] at hc
        have hl1 : (m.insertSymbol
            (.decl a "" false false false none [])).1.symbols.length
            = m.symbols.length + 1 := insertSymbol_symLen m _
        have hl2 := hbP.symLen
        rcases hc with h | h
        · have h4 := h
          rw [insertSymbol_snd] at h4
          injection h4 with h5
          omega
        · exact (hrP c h).2
      · intro brs h; cases h
termination_by sizeOf e

theorem addExprOpt_ok (m : Module) (scope : Nat) (oe : Option Expr)
    (hs : scope < m.scopes.length) :
    BStep m (addExprOpt m scope oe).1 ∧
    ∀ p, (addExprOpt m scope oe).2 = some p →
      m.symbols.length ≤ p ∧ p < (addExprOpt m scope oe).1.symbols.length := by
  cases oe with
  | none =>
    simp only [addExprOpt]
    exact ⟨BStep.rfl m, by intro p hp; cases hp⟩
  | some e =>
    simp only [addExprOpt]
    have hE := addExpression_ok m scope e hs
    exact ⟨hE.1, fun p hp => ⟨(hE.2 p hp).1, (hE.2 p hp).2.1⟩⟩
termination_by sizeOf oe

theorem addExprListCollect_ok (m : Module) (scope : Nat) (es : List Expr)
    (hs : scope < m.scopes.length) :
    BStep m (addExprListCollect m scope es).1 ∧
    ∀ x ∈ (addExprListCollect m scope es).2,
      m.symbols.length ≤ x ∧
        x < (addExprListCollect m scope es).1.symbols.length := by
  cases es with
  | nil =>
    simp only [addExprListCollect]
    exact ⟨BStep.rfl m, by intro x hx; cases hx⟩
  | cons e rest =>
    have hE := addExpression_ok m scope e hs
    have hs1 : scope < (addExpression m scope e).1.scopes.length :=
      Nat.lt_of_lt_of_le hs hE.1.scLen
    obtain ⟨hbR, hxR⟩ := addExprListCollect_ok (addExpression m scope e).1
      scope rest hs1
    simp only [addExprListCollect]
    cases hr : (addExpression m scope e).2 with
    | none =>
      simp only [hr]
      refine ⟨hE.1.trans hbR, ?_⟩
      intro x hx
      obtain ⟨ha, hb⟩ := hxR x hx
      have := hE.1.symLen
      exact ⟨by omega, hb⟩
    | some p =>
      simp only [hr]
      refine ⟨hE.1.trans hbR, ?_⟩
      intro x hx
      rcases List.mem_cons.mp hx with h1 | h2
      · obtain ⟨ha, hb, _, _⟩ := hE.2 p hr
        rw [h1]
        exact ⟨ha, by have := hbR.symLen; omega⟩
      · obtain ⟨ha, hb⟩ := hxR x h2
        have := hE.1.symLen
        exact ⟨by omega, hb⟩
termination_by sizeOf es

theorem addObjectFields_ok (m : Module) (scope : Nat)
    (fs : List ObjectFieldCst) (hs : scope < m.scopes.length) :
    BStep m (addObjectFields m scope fs).1 ∧
    ∀ pr ∈ (addObjectFields m scope fs).2, ∀ x, pr.2 = some x →
      m.symbols.length ≤ x ∧
        x < (addObjectFields m scope fs).1.symbols.length := by
  cases fs with
  | nil =>
    simp only [addObjectFields]
    exact ⟨BStep.rfl m, by intro pr hpr; cases hpr⟩
  | cons f rest =>
    cases f with
    | mk prop val =>
      cases prop with
      | none =>
        cases val with
        | none =>
          simp only [addObjectFields]
          exact addObjectFields_ok m scope rest hs
        | some e =>
          simp only [addObjectFields]
          exact addObjectFields_ok m scope rest hs
      | some name =>
        cases val with
        | none =>
          simp only [addObjectFields]
          exact addObjectFields_ok m scope rest hs
        | some e =>
          have hE := addExpression_ok m scope e hs
          have hs1 : scope < (addExpression m scope e).1.scopes.length :=
            Nat.lt_of_lt_of_le hs hE.1.scLen
          obtain ⟨hbR, hxR⟩ := addObjectFields_ok (addExpression m scope e).1
            scope rest hs1
          simp only [addObjectFields]
          refine ⟨hE.1.trans hbR, ?_⟩
          intro pr hpr x hx
          rcases List.mem_cons.mp hpr with h1 | h2
          · subst h1
            simp only at hx
            obtain ⟨ha, hb, _, _⟩ := hE.2 x hx
            exact ⟨ha, by have := hbR.symLen; omega⟩
          · obtain ⟨ha, hb⟩ := hxR pr h2 x hx
            have := hE.1.symLen
            exact ⟨by omega, hb⟩
termination_by sizeOf fs

theorem addSwitchArms_ok (m : Module) (scope : Nat)
    (arms : List SwitchArmCst) (hs : scope < m.scopes.length) :
    BStep m (addSwitchArms m scope arms).1 ∧
    ∀ pr ∈ (addSwitchArms m scope arms).2,
      ∀ x ∈ pr.1.toList ++ pr.2.toList,
        m.symbols.length ≤ x ∧
          x < (addSwitchArms m scope arms).1.symbols.length := by
  cases arms with
  | nil =>
    simp only [addSwitchArms]
    exact ⟨BStep.rfl m, by intro pr hpr; cases hpr⟩
  | cons a rest =>
    cases a with
    | mk dis pat val =>
      cases dis with
      | false =>
        cases pat with
        | none =>
          cases val with
          | none =>
            obtain ⟨hbR, hxR⟩ := addSwitchArms_ok m scope rest hs
            simp only [addSwitchArms]
            exact switchArms_cons_ok (BStep.rfl m)
              (by intro c hc; cases hc) (BStep.rfl m)
              (by intro c hc; cases hc) hbR hxR
          | some v =>
            have hV := addExpression_ok m scope v hs
            obtain ⟨hbR, hxR⟩ := addSwitchArms_ok (addExpression m scope v).1
              scope rest (Nat.lt_of_lt_of_le hs hV.1.scLen)
            simp only [addSwitchArms]
            exact switchArms_cons_ok (BStep.rfl m)
              (by intro c hc; cases hc) hV.1
              (fun c hc => ⟨(hV.2 c hc).1, (hV.2 c hc).2.1⟩) hbR hxR
        | some p =>
          cases val with
          | none =>
            have hP := addExpression_ok m scope p hs
            obtain ⟨hbR, hxR⟩ := addSwitchArms_ok (addExpression m scope p).1
              scope rest (Nat.lt_of_lt_of_le hs hP.1.scLen)
            simp only [addSwitchArms]
            exact switchArms_cons_ok hP.1
              (fun c hc => ⟨(hP.2 c hc).1, (hP.2 c hc).2.1⟩)
              (BStep.rfl _) (by intro c hc; cases hc) hbR hxR
          | some v =>
            have hP := addExpression_ok m scope p hs
            have hsP : scope < (addExpression m scope p).1.scopes.length :=
              Nat.lt_of_lt_of_le hs hP.1.scLen
            have hV := addExpression_ok (addExpression m scope p).1 scope v hsP
            obtain ⟨hbR, hxR⟩ := addSwitchArms_ok
              (addExpression (addExpression m scope p).1 scope v).1 scope rest
              (Nat.lt_of_lt_of_le hsP hV.1.scLen)
            have ho3 : ∀ c,
                (addExpression (addExpression m scope p).1 scope v).2 = some c →
                m.symbols.length ≤ c ∧
                  c < (addExpression (addExpression m scope p).1 scope
                    v).1.symbols.length := by
              intro c hc
              have h1 := (hV.2 c hc).1
              have h2 := (hV.2 c hc).2.1
              have h3 := hP.1.symLen
              exact ⟨by omega, h2⟩
            simp only [addSwitchArms]
            exact switchArms_cons_ok hP.1
              (fun c hc => ⟨(hP.2 c hc).1, (hP.2 c hc).2.1⟩)
              hV.1 ho3 hbR hxR
      | true =>
        have hbD := bstep_insertSymbol m SymbolKind.discard
        have hsD : scope <
            (m.insertSymbol SymbolKind.discard).1.scopes.length := by
          rw [insertSymbol_scopes]; exact hs
        have ho2 : ∀ c, some (m.insertSymbol SymbolKind.discard).2 = some c →
            m.symbols.length ≤ c ∧
              c < (m.insertSymbol SymbolKind.discard).1.symbols.length := by
          intro c hc
          injection hc with h1
          rw [← h1, insertSymbol_snd, insertSymbol_symLen]
          omega
        cases pat with
        | none =>
          cases val with
          | none =>
            obtain ⟨hbR, hxR⟩ := addSwitchArms_ok
              (m.insertSymbol SymbolKind.discard).1 scope rest hsD
            simp only [addSwitchArms]
            exact switchArms_cons_ok hbD ho2 (BStep.rfl _)
              (by intro c hc; cases hc) hbR hxR
          | some v =>
            have hV := addExpression_ok (m.insertSymbol SymbolKind.discard).1
              scope v hsD
            obtain ⟨hbR, hxR⟩ := addSwitchArms_ok
              (addExpression (m.insertSymbol SymbolKind.discard).1 scope v).1
              scope rest (Nat.lt_of_lt_of_le hsD hV.1.scLen)
            have ho3 : ∀ c,
                (addExpression (m.insertSymbol SymbolKind.discard).1 scope
                  v).2 = some c →
                m.symbols.length ≤ c ∧
                  c < (addExpression (m.insertSymbol SymbolKind.discard).1
                    scope v).1.symbols.length := by
              intro c hc
              have h1 := (hV.2 c hc).1
              have h2 := (hV.2 c hc).2.1
              have h3 : (m.insertSymbol SymbolKind.discard).1.symbols.length
                  = m.symbols.length + 1 := insertSymbol_symLen m _
              exact ⟨by omega, h2⟩
            simp only [addSwitchArms]
            exact switchArms_cons_ok hbD ho2 hV.1 ho3 hbR hxR
        | some p =>
          have hP := addExpression_ok (m.insertSymbol SymbolKind.discard).1
            scope p hsD
          have hsP : scope <
              (addExpression (m.insertSymbol SymbolKind.discard).1 scope
                p).1.scopes.length :=
            Nat.lt_of_lt_of_le hsD hP.1.scLen
          have hoP : ∀ c,
              (addExpression (m.insertSymbol SymbolKind.discard).1 scope
                p).2 = some c →
              m.symbols.length ≤ c ∧
                c < (addExpression (m.insertSymbol SymbolKind.discard).1
                  scope p).1.symbols.length := by
            intro c hc
            have h1 := (hP.2 c hc).1
            have h2 := (hP.2 c hc).2.1
            have h3 : (m.insertSymbol SymbolKind.discard).1.symbols.length
                = m.symbols.length + 1 := insertSymbol_symLen m _
            exact ⟨by omega, h2⟩
          cases val with
          | none =>
            obtain ⟨hbR, hxR⟩ := addSwitchArms_ok
              (addExpression (m.insertSymbol SymbolKind.discard).1 scope p).1
              scope rest hsP
            simp only [addSwitchArms]
            exact switchArms_cons_ok (hbD.trans hP.1) hoP (BStep.rfl _)
              (by intro c hc; cases hc) hbR hxR
          | some v =>
            have hV := addExpression_ok
              (addExpression (m.insertSymbol SymbolKind.discard).1 scope p).1
              scope v hsP
            obtain ⟨hbR, hxR⟩ := addSwitchArms_ok
              (addExpression
                (addExpression (m.insertSymbol SymbolKind.discard).1 scope
                  p).1 scope v).1 scope rest
              (Nat.lt_of_lt_of_le hsP hV.1.scLen)
            have ho3 : ∀ c,
                (addExpression
                  (addExpression (m.insertSymbol SymbolKind.discard).1 scope
                    p).1 scope v).2 = some c →
                m.symbols.length ≤ c ∧
                  c < (addExpression
                    (addExpression (m.insertSymbol SymbolKind.discard).1 scope
                      p).1 scope v).1.symbols.length := by
              intro c hc
              have h1 := (hV.2 c hc).1
              have h2 := (hV.2 c hc).2.1
              have h3 := hP.1.symLen
              have h4 : (m.insertSymbol SymbolKind.discard).1.symbols.length
                  = m.symbols.length + 1 := insertSymbol_symLen m _
              exact ⟨by omega, h2⟩
            simp only [addSwitchArms]
            exact switchArms_cons_ok (hbD.trans hP.1) hoP hV.1 ho3 hbR hxR
termination_by sizeOf arms

theorem addStatement_ok (m : Module) (scope : Nat) (st : Stmt)
    (hs : scope < m.scopes.length) :
    BStep m (addStatement m scope st).1 := by
  cases st with
  | mk item =>
    cases item with
    | none =>
      simp only [addStatement]
      exact BStep.rfl m
    | some it =>
      cases it with
      | mk docs oe =>
        cases oe with
        | none =>
          simp only [addStatement]
          exact BStep.rfl m
        | some e =>
          have hE := addExpression_ok m scope e hs
          simp only [addStatement]
          cases hr : (addExpression m scope e).2 with
          | none =>
            simp only [hr]
            exact hE.1
          | some p =>
            simp only [hr]
            obtain ⟨hp1, _, _, _⟩ := hE.2 p hr
            exact bstep_modifyKind_fresh p _ hE.1 hp1
termination_by sizeOf st

theorem addStatements_ok (m : Module) (scope : Nat) (stmts : List Stmt)
    (hs : scope < m.scopes.length) :
    BStep m (addStatements m scope stmts) := by
  cases stmts with
  | nil =>
    simp only [addStatements]
    exact BStep.rfl m
  | cons s rest =>
    simp only [addStatements]
    have h1 := addStatement_ok m scope s hs
    have h2 := addStatements_ok (addStatement m scope s).1 scope rest
      (Nat.lt_of_lt_of_le hs h1.scLen)
    exact h1.trans h2
termination_by sizeOf stmts

theorem addStmtsOpt_ok (m : Module) (scope : Nat) (ob : Option (List Stmt))
    (hs : scope < m.scopes.length) :
    BStep m (addStmtsOpt m scope ob) := by
  cases ob with
  | none =>
    simp only [addStmtsOpt]
    exact BStep.rfl m
  | some stmts =>
    simp only [addStmtsOpt]
    exact addStatements_ok m scope stmts hs
termination_by sizeOf ob

theorem ifBranchStep_ok (m : Module) (scope symbol : Nat) (cond : Option Expr)
    (thenB : Option (List Stmt)) (hs : scope < m.scopes.length)
    (ps : Option Nat) (brs : List (Option Nat × Nat))
    (hsym : symAt m symbol = some ⟨ps, .ifK brs⟩) :
    IfStepOut m symbol (ifBranchStep m scope symbol cond thenB) ps brs
      [((addExprOpt m scope cond).2,
        (addExprOpt m scope cond).1.scopes.length)] := by
  obtain ⟨hb1, hr1⟩ := addExprOpt_ok m scope cond hs
  have hrs2 : ((addExprOpt m scope cond).1.createScope none).2
      = (addExprOpt m scope cond).1.scopes.length :=
    createScope_snd _ none
  have hb2 : BStep (addExprOpt m scope cond).1
      ((addExprOpt m scope cond).1.createScope none).1 :=
    bstep_createScope _ none
  have hb3 : BStep (addExprOpt m scope cond).1
      (((addExprOpt m scope cond).1.createScope none).1.setAsParentSymbol
        symbol (addExprOpt m scope cond).1.scopes.length) :=
    bstep_setParent_fresh symbol (addExprOpt m scope cond).1.scopes.length hb2
      (Nat.le_refl _)
  have hsv : (addExprOpt m scope cond).1.scopes.length <
      ((((addExprOpt m scope cond).1.createScope none).1).setAsParentSymbol
        symbol (addExprOpt m scope cond).1.scopes.length).scopes.length := by
    rw [setParent_scLen, createScope_scLen]
    omega
  have hb4 := addStmtsOpt_ok
    ((((addExprOpt m scope cond).1.createScope none).1).setAsParentSymbol
      symbol (addExprOpt m scope cond).1.scopes.length)
    (addExprOpt m scope cond).1.scopes.length thenB hsv
  have hb14 : BStep (addExprOpt m scope cond).1
      (addStmtsOpt
        ((((addExprOpt m scope cond).1.createScope none).1).setAsParentSymbol
          symbol (addExprOpt m scope cond).1.scopes.length)
        (addExprOpt m scope cond).1.scopes.length thenB) :=
    hb3.trans hb4
  have hbm4 : BStep m
      (addStmtsOpt
        ((((addExprOpt m scope cond).1.createScope none).1).setAsParentSymbol
          symbol (addExprOpt m scope cond).1.scopes.length)
        (addExprOpt m scope cond).1.scopes.length thenB) :=
    hb1.trans hb14
  have hsymlt : symbol < m.symbols.length := symAt_lt_of_some hsym
  have hsym4 : symAt
      (addStmtsOpt
        ((((addExprOpt m scope cond).1.createScope none).1).setAsParentSymbol
          symbol (addExprOpt m scope cond).1.scopes.length)
        (addExprOpt m scope cond).1.scopes.length thenB) symbol
      = some ⟨ps, .ifK brs⟩ :=
    (hbm4.symPres symbol hsymlt).trans hsym
  simp only [ifBranchStep]
  rw [hrs2]
  refine ⟨?_, ?_, ?_, ?_, ?_, ?_, ?_⟩
  · rw [Module.pushIfBranch, modifyKind_symLen]
    exact hbm4.symLen
  · rw [Module.pushIfBranch, modifyKind_scopes]
    exact hbm4.scLen
  · intro i hi hne
    rw [Module.pushIfBranch, modifyKind_symAt_ne _ _ _ hne]
    exact hbm4.symPres i hi
  · intro s hsv2
    rw [Module.pushIfBranch, scopeAt, scopeAt, modifyKind_scopes]
    exact hbm4.scPar s hsv2
  · intro h
    rw [Module.pushIfBranch]
    exact INV_modifyKind _ _ _ (hbm4.inv h)
  · exact pushIfBranch_symAt_ifK _ _ _ hsym4
  · intro pr hpr c hc
    have hpr2 : pr = ((addExprOpt m scope cond).2,
        (addExprOpt m scope cond).1.scopes.length) :=
      List.mem_singleton.mp hpr
    subst hpr2
    obtain ⟨c1, c2⟩ := hr1 c hc
    refine ⟨c1, ?_⟩
    rw [Module.pushIfBranch, modifyKind_symLen]
    have := hb14.symLen
    omega
termination_by sizeOf cond + sizeOf thenB
decreasing_by
  all_goals simp_wf
  all_goals
    (have h1 := sizeOf_option_pos cond
     have h2 := sizeOf_option_pos thenB
     omega)

theorem ifLoop_ok (m : Module) (scope symbol : Nat) (chain : IfChain)
    (hs : scope < m.scopes.length)
    (ps : Option Nat) (brs : List (Option Nat × Nat))
    (hsym : symAt m symbol = some ⟨ps, .ifK brs⟩) :
    ∃ newBrs, IfStepOut m symbol (ifLoop m scope symbol chain) ps brs newBrs := by
  cases chain with
  | mk cond thenB elseB elseIf =>
    cases elseB with
    | some elseBody =>
      have h1 := ifBranchStep_ok m scope symbol cond thenB hs ps brs hsym
      have hs5 : scope < (ifBranchStep m scope symbol cond thenB).scopes.length := by
        have := h1.2.1
        omega
      have h2 := ifBranchStep_ok (ifBranchStep m scope symbol cond thenB) scope
        symbol none (some elseBody) hs5 ps _ h1.2.2.2.2.2.1
      simp only [ifLoop]
      exact ⟨_, ifStepOut_trans h1 h2⟩
    | none =>
      cases elseIf with
      | some next =>
        have h1 := ifBranchStep_ok m scope symbol cond thenB hs ps brs hsym
        have hs5 : scope <
            (ifBranchStep m scope symbol cond thenB).scopes.length := by
          have := h1.2.1
          omega
        obtain ⟨nb2, h2⟩ := ifLoop_ok (ifBranchStep m scope symbol cond thenB)
          scope symbol next hs5 ps _ h1.2.2.2.2.2.1
        simp only [ifLoop]
        exact ⟨_, ifStepOut_trans h1 h2⟩
      | none =>
        simp only [ifLoop]
        exact ⟨_, ifBranchStep_ok m scope symbol cond thenB hs ps brs hsym⟩
termination_by sizeOf chain
decreasing_by
  all_goals simp_wf
  all_goals try omega
  all_goals
    (have h1 := sizeOf_option_pos cond
     omega)

end

/-! ## Resolver preservation layer

The resolver mutates only reference targets (`setTarget`) and
`references` sets (`insertRef`).  These preserve every ingredient the
visibility enumeration and name matching depend on, so visibility computed
at any intermediate state of the resolution loop equals visibility in the
starting module. -/

/-- The name payload of a kind (`SymbolData::name`, kind part). -/
def kindName : SymbolKind → Option String
  | .reference n _ _ => some n
  | .pathK _ => none
  | .lit => none
  | .decl n _ _ _ _ _ _ => some n
  | .fnK n _ _ _ => some n
  | .block _ => none
  | .unary _ _ => none
  | .binary _ _ _ => none
  | .array _ => none
  | .indexK _ _ => none
  | .object _ => none
  | .call _ _ => none
  | .closure _ _ => none
  | .ifK _ => none
  | .loopK _ => none
  | .forK _ _ => none
  | .whileK _ _ => none
  | .breakK _ => none
  | .continueK => none
  | .switchK _ _ => none
  | .returnK _ => none
  | .discard => none
  | .importK _ _ => none

/-- Whether a kind is a declaration candidate (`Fn` or `Decl`). -/
def kindCand : SymbolKind → Bool
  | .reference _ _ _ => false
  | .pathK _ => false
  | .lit => false
  | .decl _ _ _ _ _ _ _ => true
  | .fnK _ _ _ _ => true
  | .block _ => false
  | .unary _ _ => false
  | .binary _ _ _ => false
  | .array _ => false
  | .indexK _ _ => false
  | .object _ => false
  | .call _ _ => false
  | .closure _ _ => false
  | .ifK _ => false
  | .loopK _ => false
  | .forK _ _ => false
  | .whileK _ _ => false
  | .breakK _ => false
  | .continueK => false
  | .switchK _ _ => false
  | .returnK _ => false
  | .discard => false
  | .importK _ _ => false

/-- The `references` payload of a kind. -/
def kindRefs : SymbolKind → List Nat
  | .reference _ _ _ => []
  | .pathK _ => []
  | .lit => []
  | .decl _ _ _ _ _ _ refs => refs
  | .fnK _ _ _ refs => refs
  | .block _ => []
  | .unary _ _ => []
  | .binary _ _ _ => []
  | .array _ => []
  | .indexK _ _ => []
  | .object _ => []
  | .call _ _ => []
  | .closure _ _ => []
  | .ifK _ => []
  | .loopK _ => []
  | .forK _ _ => []
  | .whileK _ _ => []
  | .breakK _ => []
  | .continueK => []
  | .switchK _ _ => []
  | .returnK _ => []
  | .discard => []
  | .importK _ _ => []

theorem symName_eq (m : Module) (v : Nat) :
    symName m v = (symAt m v).bind (fun d => kindName d.kind) := by
  cases h : symAt m v with
  | none => simp [symName, h]
  | some d =>
    cases d with
    | mk ps k => cases k <;> simp [symName, h, kindName]

theorem declCandidate_eq (m : Module) (v : Nat) :
    declCandidate m v
      = ((symAt m v).map (fun d => kindCand d.kind)).getD false := by
  cases h : symAt m v with
  | none => simp [declCandidate, h]
  | some d =>
    cases d with
    | mk ps k => cases k <;> simp [declCandidate, h, kindCand]

theorem refsOf_eq (m : Module) (h : Nat) :
    refsOf m h = ((symAt m h).map (fun d => kindRefs d.kind)).getD [] := by
  cases hv : symAt m h with
  | none => simp [refsOf, hv]
  | some d =>
    cases d with
    | mk ps k => cases k <;> simp [refsOf, hv, kindRefs]

theorem modifyKind_symName (m : Module) (j : Nat) (F : SymbolKind → SymbolKind)
    (hF : ∀ k, kindName (F k) = kindName k) (x : Nat) :
    symName (modifyKind m j F) x = symName m x := by
  rw [symName_eq, symName_eq]
  by_cases hx : x = j
  · subst hx
    rw [modifyKind_symAt_self]
    cases symAt m x with
    | none => rfl
    | some d => simp [hF]
  · rw [modifyKind_symAt_ne m j F hx]

theorem modifyKind_declCandidate (m : Module) (j : Nat)
    (F : SymbolKind → SymbolKind)
    (hF : ∀ k, kindCand (F k) = kindCand k) (x : Nat) :
    declCandidate (modifyKind m j F) x = declCandidate m x := by
  rw [declCandidate_eq, declCandidate_eq]
  by_cases hx : x = j
  · subst hx
    rw [modifyKind_symAt_self]
    cases symAt m x with
    | none => rfl
    | some d => simp [hF]
  · rw [modifyKind_symAt_ne m j F hx]

theorem modifyKind_refsOf (m : Module) (j : Nat) (F : SymbolKind → SymbolKind)
    (hF : ∀ k, kindRefs (F k) = kindRefs k) (x : Nat) :
    refsOf (modifyKind m j F) x = refsOf m x := by
  rw [refsOf_eq, refsOf_eq]
  by_cases hx : x = j
  · subst hx
    rw [modifyKind_symAt_self]
    cases symAt m x with
    | none => rfl
    | some d => simp [hF]
  · rw [modifyKind_symAt_ne m j F hx]

theorem setTarget_scopes (m : Module) (i : Nat) (t : Option Nat) :
    (setTarget m i t).scopes = m.scopes := rfl

theorem setTarget_symLen (m : Module) (i : Nat) (t : Option Nat) :
    (setTarget m i t).symbols.length = m.symbols.length :=
  modifyKind_symLen m i _

theorem setTarget_parentScope (m : Module) (i : Nat) (t : Option Nat) (x : Nat) :
    (symAt (setTarget m i t) x).map SymbolData.parentScope
      = (symAt m x).map SymbolData.parentScope :=
  modifyKind_parentScope m i _ x

theorem setTarget_symName (m : Module) (i : Nat) (t : Option Nat) (x : Nat) :
    symName (setTarget m i t) x = symName m x :=
  modifyKind_symName m i _ (fun k => by cases k <;> rfl) x

theorem setTarget_declCandidate (m : Module) (i : Nat) (t : Option Nat)
    (x : Nat) : declCandidate (setTarget m i t) x = declCandidate m x :=
  modifyKind_declCandidate m i _ (fun k => by cases k <;> rfl) x

theorem setTarget_refsOf (m : Module) (i : Nat) (t : Option Nat) (x : Nat) :
    refsOf (setTarget m i t) x = refsOf m x :=
  modifyKind_refsOf m i _ (fun k => by cases k <;> rfl) x

theorem insertRef_scopes (m : Module) (h j : Nat) :
    (insertRef m h j).scopes = m.scopes := rfl

theorem insertRef_symLen (m : Module) (h j : Nat) :
    (insertRef m h j).symbols.length = m.symbols.length :=
  modifyKind_symLen m h _

theorem insertRef_parentScope (m : Module) (h j : Nat) (x : Nat) :
    (symAt (insertRef m h j) x).map SymbolData.parentScope
      = (symAt m x).map SymbolData.parentScope :=
  modifyKind_parentScope m h _ x

theorem insertRef_symName (m : Module) (h j : Nat) (x : Nat) :
    symName (insertRef m h j) x = symName m x :=
  modifyKind_symName m h _ (fun k => by cases k <;> rfl) x

theorem insertRef_declCandidate (m : Module) (h j : Nat) (x : Nat) :
    declCandidate (insertRef m h j) x = declCandidate m x :=
  modifyKind_declCandidate m h _ (fun k => by cases k <;> rfl) x

theorem insertRef_symAt_ref {m : Module} (h j : Nat) {x : Nat}
    {ps : Option Nat} {nm : String} {pp : Bool} {t : Option Nat}
    (hx : symAt m x = some ⟨ps, .reference nm pp t⟩) :
    symAt (insertRef m h j) x = symAt m x := by
  by_cases hxh : x = h
  · subst hxh
    rw [insertRef, modifyKind_symAt_self, hx]
    rfl
  · rw [insertRef, modifyKind_symAt_ne m h _ hxh]

theorem insertRef_refsOf_mono {m : Module} (h j : Nat) (x i : Nat)
    (hx : i ∈ refsOf m x) : i ∈ refsOf (insertRef m h j) x := by
  rw [refsOf_eq] at hx ⊢
  by_cases hxh : x = h
  · subst hxh
    rw [insertRef, modifyKind_symAt_self]
    cases hv : symAt m x with
    | none =>
      rw [hv] at hx
      simp at hx
    | some d =>
      rw [hv] at hx
      cases d with
      | mk psd k =>
        simp only [Option.map_some', Option.getD_some] at hx ⊢
        cases k <;> simp only [kindRefs] at hx ⊢ <;>
          first
          | exact hx
          | (split <;> first | exact hx | exact List.mem_append_left _ hx)
  · rw [insertRef, modifyKind_symAt_ne m h _ hxh]
    exact hx

theorem insertRef_mem_refsOf {m : Module} {v : Nat} (i : Nat)
    (hc : declCandidate m v = true) : i ∈ refsOf (insertRef m v i) v := by
  rw [declCandidate_eq] at hc
  rw [refsOf_eq, insertRef, modifyKind_symAt_self]
  cases hv : symAt m v with
  | none =>
    rw [hv] at hc
    simp at hc
  | some d =>
    rw [hv] at hc
    cases d with
    | mk psd k =>
      simp only [Option.map_some', Option.getD_some] at hc ⊢
      cases k <;> simp only [kindCand] at hc <;>
        first
        | exact absurd hc (by decide)
        | (simp only [kindRefs]
           split <;>
             first
             | assumption
             | exact List.mem_append_right _ (List.mem_singleton.mpr rfl))

theorem option_bind_parentScope_congr {o o2 : Option SymbolData}
    (h : o.map SymbolData.parentScope = o2.map SymbolData.parentScope) :
    o.bind SymbolData.parentScope = o2.bind SymbolData.parentScope := by
  cases o <;> cases o2 <;> simp_all

/-- Visibility only depends on the scope arena, the parent-scope back
pointers and the candidate classification, all of which the resolver
preserves. -/
theorem visibleAux_congr {m m2 : Module} (hsc : m2.scopes = m.scopes)
    (hps : ∀ x, (symAt m2 x).map SymbolData.parentScope
      = (symAt m x).map SymbolData.parentScope)
    (hdc : ∀ x, declCandidate m2 x = declCandidate m x) (r : Nat) :
    ∀ fuel os, visibleAux m2 r fuel os = visibleAux m r fuel os := by
  intro fuel
  induction fuel with
  | zero => intro os; cases os <;> rfl
  | succ n ih =>
    intro os
    cases os with
    | none => rfl
    | some sHandle =>
      have hscat : scopeAt m2 sHandle = scopeAt m sHandle := by
        rw [scopeAt, scopeAt, hsc]
      cases hsd : scopeAt m sHandle with
      | none => simp only [visibleAux, hscat, hsd]
      | some sd =>
        have hvis : visibleInScope m2 r sd = visibleInScope m r sd := by
          rw [visibleInScope, visibleInScope]
          have h1 : sd.hoistedSymbols.filter (fun v => declCandidate m2 v)
              = sd.hoistedSymbols.filter (fun v => declCandidate m v) :=
            List.filter_congr (fun v _ => by rw [hdc])
          have h2 : sd.symbols.filter
                (fun v => decide (v < r) && declCandidate m2 v)
              = sd.symbols.filter
                (fun v => decide (v < r) && declCandidate m v) :=
            List.filter_congr (fun v _ => by rw [hdc])
          rw [h1, h2]
        cases hp : sd.parentSymbol with
        | none => simp only [visibleAux, hscat, hsd, hp, hvis]
        | some psym =>
          simp only [visibleAux, hscat, hsd, hp, hvis]
          rw [option_bind_parentScope_congr (hps psym), ih]

theorem visibleSymbols_congr {m m2 : Module} (hsc : m2.scopes = m.scopes)
    (hps : ∀ x, (symAt m2 x).map SymbolData.parentScope
      = (symAt m x).map SymbolData.parentScope)
    (hdc : ∀ x, declCandidate m2 x = declCandidate m x) (r : Nat) :
    visibleSymbolsFromSymbol m2 r = visibleSymbolsFromSymbol m r := by
  rw [visibleSymbolsFromSymbol, visibleSymbolsFromSymbol, hsc,
    option_bind_parentScope_congr (hps r),
    visibleAux_congr hsc hps hdc]

/-- State preservation across resolver steps. -/
def RP (m0 mq : Module) : Prop :=
  mq.scopes = m0.scopes ∧
  (∀ x, (symAt mq x).map SymbolData.parentScope
    = (symAt m0 x).map SymbolData.parentScope) ∧
  (∀ x, symName mq x = symName m0 x) ∧
  (∀ x, declCandidate mq x = declCandidate m0 x) ∧
  (∀ x ps nm pp t0, symAt m0 x = some ⟨ps, .reference nm pp t0⟩ →
    ∃ t1, symAt mq x = some ⟨ps, .reference nm pp t1⟩) ∧
  (∀ h x, x ∈ refsOf m0 h → x ∈ refsOf mq h)

theorem RP.toRfl (m : Module) : RP m m :=
  ⟨rfl, fun _ => rfl, fun _ => rfl, fun _ => rfl,
    fun _ _ _ _ _ hx => ⟨_, hx⟩, fun _ _ hx => hx⟩

theorem RP.compose {m0 m1 m2 : Module} (a : RP m0 m1) (b : RP m1 m2) :
    RP m0 m2 := by
  obtain ⟨a1, a2, a3, a4, a5, a6⟩ := a
  obtain ⟨b1, b2, b3, b4, b5, b6⟩ := b
  refine ⟨b1.trans a1, fun x => (b2 x).trans (a2 x),
    fun x => (b3 x).trans (a3 x), fun x => (b4 x).trans (a4 x), ?_, ?_⟩
  · intro x ps nm pp t0 hx
    obtain ⟨t1, h1⟩ := a5 x ps nm pp t0 hx
    exact b5 x ps nm pp t1 h1
  · intro h x hx
    exact b6 h x (a6 h x hx)

theorem RP_setTarget (m : Module) (i : Nat) (t : Option Nat) :
    RP m (setTarget m i t) := by
  refine ⟨setTarget_scopes m i t, setTarget_parentScope m i t,
    setTarget_symName m i t, setTarget_declCandidate m i t, ?_, ?_⟩
  · intro x ps nm pp t0 hx
    by_cases hxi : x = i
    · subst hxi
      exact ⟨t, setTarget_symAt_ref m x t hx⟩
    · refine ⟨t0, ?_⟩
      rw [setTarget, modifyKind_symAt_ne m i _ hxi]
      exact hx
  · intro h x hx
    rw [setTarget_refsOf]
    exact hx

theorem RP_insertRef (m : Module) (h j : Nat) : RP m (insertRef m h j) := by
  refine ⟨insertRef_scopes m h j, insertRef_parentScope m h j,
    insertRef_symName m h j, insertRef_declCandidate m h j, ?_,
    insertRef_refsOf_mono h j⟩
  intro x ps nm pp t0 hx
  exact ⟨t0, by rw [insertRef_symAt_ref h j hx]; exact hx⟩

theorem resolveOne_eq_none (m : Module) (i : Nat) (nm : String) :
    ∀ vis, vis.find? (selectsName m nm) = none → resolveOne m i nm vis = m := by
  intro vis
  induction vis with
  | nil => intro _; rfl
  | cons w rest ih =>
    intro h
    by_cases hw : selectsName m nm w
    · rw [List.find?_cons_of_pos _ hw] at h
      cases h
    · rw [List.find?_cons_of_neg _ hw] at h
      simp only [resolveOne]
      rw [if_neg hw]
      exact ih h

theorem resolveOne_eq_some (m : Module) (i : Nat) (nm : String) :
    ∀ vis v, vis.find? (selectsName m nm) = some v →
      resolveOne m i nm vis = setTarget (insertRef m v i) i (some v) := by
  intro vis
  induction vis with
  | nil => intro v h; cases h
  | cons w rest ih =>
    intro v h
    by_cases hw : selectsName m nm w
    · rw [List.find?_cons_of_pos _ hw] at h
      injection h with h2
      subst h2
      simp only [resolveOne]
      rw [if_pos hw]
    · rw [List.find?_cons_of_neg _ hw] at h
      simp only [resolveOne]
      rw [if_neg hw]
      exact ih v h

theorem RP_resolveOne (m : Module) (i : Nat) (nm : String) (vis : List Nat) :
    RP m (resolveOne m i nm vis) := by
  cases hf : vis.find? (selectsName m nm) with
  | none => rw [resolveOne_eq_none m i nm vis hf]; exact RP.toRfl m
  | some v =>
    rw [resolveOne_eq_some m i nm vis v hf]
    exact (RP_insertRef m v i).compose (RP_setTarget _ i (some v))

theorem RP_resolveSymbol (m : Module) (i : Nat) : RP m (resolveSymbol m i) := by
  cases hd : symAt m i with
  | none =>
    simp only [resolveSymbol, hd]
    exact RP.toRfl m
  | some d =>
    cases d with
    | mk ps k =>
      cases k <;> simp only [resolveSymbol, hd] <;> try exact RP.toRfl m
      exact (RP_setTarget m i none).compose (RP_resolveOne _ i _ _)

theorem RP_foldl (l : List Nat) : ∀ m : Module, RP m (l.foldl resolveSymbol m) := by
  induction l with
  | nil => intro m; exact RP.toRfl m
  | cons j rest ih =>
    intro m
    rw [List.foldl_cons]
    exact (RP_resolveSymbol m j).compose (ih (resolveSymbol m j))

theorem visibleInScope_mem {m : Module} {r : Nat} {sd : ScopeData} {v : Nat}
    (h : v ∈ visibleInScope m r sd) :
    v ∈ scopeMembers sd ∧ declCandidate m v = true := by
  rw [visibleInScope] at h
  rcases List.mem_append.mp h with h1 | h1
  · obtain ⟨hm, hc⟩ := List.mem_filter.mp h1
    exact ⟨List.mem_append_right _ hm, hc⟩
  · obtain ⟨hm, hc⟩ := List.mem_filter.mp h1
    simp only [Bool.and_eq_true, decide_eq_true_eq] at hc
    exact ⟨List.mem_append_left _ hm, hc.2⟩

theorem visibleAux_mem {m : Module} {r : Nat} :
    ∀ fuel os v, v ∈ visibleAux m r fuel os →
      (∃ s sd, scopeAt m s = some sd ∧ v ∈ scopeMembers sd) ∧
        declCandidate m v = true := by
  intro fuel
  induction fuel with
  | zero => intro os v h; cases os <;> cases h
  | succ n ih =>
    intro os v h
    cases os with
    | none => cases h
    | some sHandle =>
      cases hsd : scopeAt m sHandle with
      | none =>
        simp only [visibleAux, hsd] at h
        cases h
      | some sd =>
        cases hp : sd.parentSymbol with
        | none =>
          simp only [visibleAux, hsd, hp, List.append_nil] at h
          obtain ⟨hm, hc⟩ := visibleInScope_mem h
          exact ⟨⟨sHandle, sd, hsd, hm⟩, hc⟩
        | some psym =>
          simp only [visibleAux, hsd, hp] at h
          rcases List.mem_append.mp h with h1 | h1
          · obtain ⟨hm, hc⟩ := visibleInScope_mem h1
            exact ⟨⟨sHandle, sd, hsd, hm⟩, hc⟩
          · exact ih _ v h1

theorem visibleSymbols_mem {m : Module} {r v : Nat}
    (h : v ∈ visibleSymbolsFromSymbol m r) :
    (∃ s sd, scopeAt m s = some sd ∧ v ∈ scopeMembers sd) ∧
      declCandidate m v = true := by
  rw [visibleSymbolsFromSymbol] at h
  exact visibleAux_mem _ _ v h

theorem declCandidate_symName {m : Module} {v : Nat}
    (hc : declCandidate m v = true) : ∃ n, symName m v = some n := by
  rw [declCandidate_eq] at hc
  rw [symName_eq]
  cases hv : symAt m v with
  | none =>
    rw [hv] at hc
    simp at hc
  | some d =>
    rw [hv] at hc
    cases d with
    | mk psd k =>
      simp only [Option.map_some', Option.getD_some] at hc
      cases k <;> simp only [kindCand] at hc <;>
        first
        | exact absurd hc (by decide)
        | exact ⟨_, rfl⟩

/-- Resolving one reference, seen from any state that preserves the
starting module's names, candidates and scope structure: the outcome is
determined by `find?` over the starting module's visibility sequence. -/
theorem resolveSymbol_self_spec {m mq : Module} {i : Nat} (hrp : RP m mq)
    {ps : Option Nat} {nm : String} {pp : Bool} {t0 : Option Nat}
    (h0 : symAt m i = some ⟨ps, .reference nm pp t0⟩) :
    ((visibleSymbolsFromSymbol m i).find? (selectsName m nm) = none →
      symAt (resolveSymbol mq i) i = some ⟨ps, .reference nm pp none⟩) ∧
    (∀ v, (visibleSymbolsFromSymbol m i).find? (selectsName m nm) = some v →
      symAt (resolveSymbol mq i) i = some ⟨ps, .reference nm pp (some v)⟩ ∧
      i ∈ refsOf (resolveSymbol mq i) v) := by
  obtain ⟨t1, h1⟩ := hrp.2.2.2.2.1 i ps nm pp t0 h0
  have hm1ref : symAt (setTarget mq i none) i
      = some ⟨ps, .reference nm pp none⟩ :=
    setTarget_symAt_ref mq i none h1
  have hrpq1 : RP m (setTarget mq i none) :=
    hrp.compose (RP_setTarget mq i none)
  have hvis : visibleSymbolsFromSymbol (setTarget mq i none) i
      = visibleSymbolsFromSymbol m i :=
    visibleSymbols_congr hrpq1.1 hrpq1.2.1 hrpq1.2.2.2.1 i
  have hsel : selectsName (setTarget mq i none) nm = selectsName m nm := by
    funext v
    rw [selectsName, selectsName, hrpq1.2.2.1]
  have hres : resolveSymbol mq i
      = resolveOne (setTarget mq i none) i nm
          (visibleSymbolsFromSymbol (setTarget mq i none) i) := by
    simp only [resolveSymbol, h1]
  constructor
  · intro hf
    rw [hres, resolveOne_eq_none _ _ _ _ (by rw [hvis, hsel]; exact hf)]
    exact hm1ref
  · intro v hf
    have hf2 : (visibleSymbolsFromSymbol (setTarget mq i none) i).find?
        (selectsName (setTarget mq i none) nm) = some v := by
      rw [hvis, hsel]
      exact hf
    rw [hres, resolveOne_eq_some _ _ _ _ v hf2]
    have h2 : symAt (insertRef (setTarget mq i none) v i) i
        = some ⟨ps, .reference nm pp none⟩ := by
      rw [insertRef_symAt_ref v i hm1ref]
      exact hm1ref
    refine ⟨setTarget_symAt_ref _ i (some v) h2, ?_⟩
    have hvmem : v ∈ visibleSymbolsFromSymbol m i :=
      List.mem_of_find?_eq_some hf
    have hcand : declCandidate m v = true := (visibleSymbols_mem hvmem).2
    have hcand1 : declCandidate (setTarget mq i none) v = true := by
      rw [hrpq1.2.2.2.1]
      exact hcand
    rw [setTarget_refsOf]
    exact insertRef_mem_refsOf i hcand1

/-- Resolving a different symbol never changes a reference symbol's entry. -/
theorem resolveSymbol_symAt_other {m : Module} {j i : Nat} (hne : i ≠ j)
    {ps : Option Nat} {nm : String} {pp : Bool} {t : Option Nat}
    (h : symAt m i = some ⟨ps, .reference nm pp t⟩) :
    symAt (resolveSymbol m j) i = symAt m i := by
  cases hd : symAt m j with
  | none => simp only [resolveSymbol, hd]
  | some d =>
    cases d with
    | mk psj k =>
      cases k <;> simp only [resolveSymbol, hd]
      rename_i nmj ppj tj
      have hm1 : symAt (setTarget m j none) i = symAt m i := by
        rw [setTarget, modifyKind_symAt_ne m j _ hne]
      have h2 : symAt (setTarget m j none) i
          = some ⟨ps, .reference nm pp t⟩ := by
        rw [hm1]
        exact h
      cases hf : (visibleSymbolsFromSymbol (setTarget m j none) j).find?
          (selectsName (setTarget m j none) nmj) with
      | none =>
        rw [resolveOne_eq_none _ _ _ _ hf]
        exact hm1
      | some v =>
        rw [resolveOne_eq_some _ _ _ _ v hf]
        rw [setTarget, modifyKind_symAt_ne _ j _ hne,
          insertRef_symAt_ref v j h2]
        exact hm1

theorem foldl_resolve_pres_ref :
    ∀ (l : List Nat) (m : Module) {i : Nat} {ps : Option Nat} {nm : String}
      {pp : Bool} {t : Option Nat},
      (∀ j ∈ l, i ≠ j) → symAt m i = some ⟨ps, .reference nm pp t⟩ →
      symAt (l.foldl resolveSymbol m) i = some ⟨ps, .reference nm pp t⟩ := by
  intro l
  induction l with
  | nil =>
    intro m i ps nm pp t _ h
    exact h
  | cons j rest ih =>
    intro m i ps nm pp t hne h
    rw [List.foldl_cons]
    refine ih _ (fun j2 hj2 => hne j2 (List.mem_cons_of_mem j hj2)) ?_
    rw [resolveSymbol_symAt_other (hne j (List.mem_cons_self j rest)) h]
    exact h

theorem foldl_resolve_refs_mono :
    ∀ (l : List Nat) (m : Module) (h x : Nat),
      x ∈ refsOf m h → x ∈ refsOf (l.foldl resolveSymbol m) h := by
  intro l
  induction l with
  | nil =>
    intro m h x hx
    exact hx
  | cons j rest ih =>
    intro m h x hx
    rw [List.foldl_cons]
    exact ih _ h x ((RP_resolveSymbol m j).2.2.2.2.2 h x hx)

theorem foldl_range_split {α : Type} (f : α → Nat → α) (n i : Nat) (h : i < n)
    (a : α) :
    (List.range n).foldl f a
      = (List.range' (i + 1) (n - i - 1)).foldl f
          (f ((List.range i).foldl f a) i) := by
  obtain ⟨k, hk⟩ : ∃ k, n = i + 1 + k := ⟨n - i - 1, by omega⟩
  subst hk
  have h2 : i + 1 + k - i - 1 = k := by omega
  rw [h2]
  have h3 : List.range (i + 1 + k)
      = List.range (i + 1) ++ List.range' (i + 1) k := by
    rw [List.range_add, List.range'_eq_map_range]
  rw [h3, List.foldl_append, List.range_succ, List.foldl_append]
  rfl

/-- C8: in every scope of a constructed module the `symbols` and
`hoisted_symbols` sets are disjoint with no duplicate insertions, and every
handle in either set is a live symbol whose `parent_scope` equals that
scope — the `ScopeOk` invariant, which `add_to_scope` establishes by
inserting into exactly one of the two sets and assigning `parent_scope`. -/
theorem C8_scope_invariants (stmts : List Stmt) : INV (buildModule stmts) := by
  have h0 : INV (⟨[⟨none, [], []⟩], [], 0⟩ : Module) := by
    unfold INV ScopeOk scopeMembers
    decide
  have hb := addStatements_ok ⟨[⟨none, [], []⟩], [], 0⟩ 0 stmts (by decide)
  exact hb.inv h0

/-- C9: a parenthesised expression is lowered as a pass-through — the
result (module and produced symbol) is exactly that of lowering the inner
expression into the same scope, and an empty parenthesis produces
nothing. -/
theorem C9_paren_passthrough (m : Module) (scope : Nat) (e : Expr) :
    addExpression m scope (Expr.parenE (some e)) = addExpression m scope e ∧
    addExpression m scope (Expr.parenE none) = (m, none) := by
  constructor
  · simp only [addExpression]
  · simp only [addExpression]

/-- C2 (corrected): every child handle stored in a produced symbol's kind
(operands, elements, arguments, segments, field values, switch-arm sides,
the import alias and path) precedes the parent handle in arena insertion
order; but an `If` symbol's branch conditions are the exception — the `If`
symbol is inserted first and each branch condition is lowered afterwards,
so the condition handles strictly FOLLOW the `If` handle, contrary to the
specification's "in particular" sentence. -/
theorem C2_child_arena_order (m : Module) (scope : Nat) (e : Expr) (p : Nat)
    (hs : scope < m.scopes.length)
    (hp : (addExpression m scope e).2 = some p) :
    ∃ d, symAt (addExpression m scope e).1 p = some d ∧
      (∀ c ∈ childSyms d.kind, c < p) ∧
      (∀ brs, d.kind = SymbolKind.ifK brs → ∀ c ∈ condSyms brs, p < c) := by
  obtain ⟨_, _, ⟨d, hd, _, hch, _⟩, _⟩ := (addExpression_ok m scope e hs).2 p hp
  exact ⟨d, hd, hch.1, hch.2⟩

/-- C6: the symbol produced for an expression is attached to the enclosing
scope's `hoisted_symbols` exactly when its kind is `Fn`, `Import` or
`Switch` (`kindHoist`), and to the plain `symbols` set for every other
kind; membership in one set excludes the other. -/
theorem C6_hoist_attachment (m : Module) (scope : Nat) (e : Expr) (p : Nat)
    (hs : scope < m.scopes.length) (hInv : INV m)
    (hp : (addExpression m scope e).2 = some p) :
    ∃ d, symAt (addExpression m scope e).1 p = some d ∧
      (kindHoist d.kind = true →
        p ∈ hoistedOf (addExpression m scope e).1 scope ∧
        p ∉ plainOf (addExpression m scope e).1 scope) ∧
      (kindHoist d.kind = false →
        p ∈ plainOf (addExpression m scope e).1 scope ∧
        p ∉ hoistedOf (addExpression m scope e).1 scope) := by
  obtain ⟨_, _, ⟨d, hd, _, _, hkh⟩, hmem⟩ :=
    (addExpression_ok m scope e hs).2 p hp
  refine ⟨d, hd, ?_, ?_⟩
  · intro ht
    have hA : e.hoistAttach = true := hkh.symm.trans ht
    have h2 := hmem hInv
    rw [hA] at h2
    simpa using h2
  · intro ht
    have hA : e.hoistAttach = false := hkh.symm.trans ht
    have h2 := hmem hInv
    rw [hA] at h2
    simpa using h2

/-- C3 (corrected): lowering a `Block` expression creates a fresh scope
(handle `m.scopes.length`), adopts it — its `parent_symbol` becomes the
produced `Block` symbol — and lowers the statements into the fresh scope;
but the emitted `Block` symbol's `scope` field stores the ENCLOSING scope
(the `scope` argument), not the fresh body scope as the specification
says. -/
theorem C3_block_scope_field (m : Module) (scope : Nat) (stmts : List Stmt)
    (hs : scope < m.scopes.length) :
    (addExpression m scope (Expr.blockE stmts)).2 = some m.symbols.length ∧
    (addExpression m scope (Expr.blockE stmts)).1
      = Module.addToScope
          (addStatements
            (Module.setAsParentSymbol
              ((m.createScope none).1.insertSymbol (SymbolKind.block scope)).1
              m.symbols.length m.scopes.length)
            m.scopes.length stmts)
          scope m.symbols.length false ∧
    symAt (addExpression m scope (Expr.blockE stmts)).1 m.symbols.length
      = some ⟨some scope, SymbolKind.block scope⟩ ∧
    (scopeAt (addExpression m scope (Expr.blockE stmts)).1
        m.scopes.length).map ScopeData.parentSymbol
      = some (some m.symbols.length) ∧
    scope ≠ m.scopes.length := by
  have hrs2 : (m.createScope none).2 = m.scopes.length := createScope_snd m none
  have hr2 : ((m.createScope none).1.insertSymbol (SymbolKind.block scope)).2
      = m.symbols.length := by
    rw [insertSymbol_snd, createScope_symbols]
  have hP2 : (addExpression m scope (Expr.blockE stmts)).2
      = some m.symbols.length := by
    simp only [addExpression]
    rw [hr2]
  have hEq : (addExpression m scope (Expr.blockE stmts)).1
      = Module.addToScope
          (addStatements
            (Module.setAsParentSymbol
              ((m.createScope none).1.insertSymbol (SymbolKind.block scope)).1
              m.symbols.length m.scopes.length)
            m.scopes.length stmts)
          scope m.symbols.length false := by
    simp only [addExpression]
    rw [hr2, hrs2]
  have hsmI : symAt
      ((m.createScope none).1.insertSymbol (SymbolKind.block scope)).1
      m.symbols.length = some ⟨none, SymbolKind.block scope⟩ := by
    have h := insertSymbol_symAt_self (m.createScope none).1
      (SymbolKind.block scope)
    rw [createScope_symbols] at h
    exact h
  have hscI : scopeAt
      ((m.createScope none).1.insertSymbol (SymbolKind.block scope)).1
      m.scopes.length = some ⟨none, [], []⟩ := by
    have h : scopeAt
        ((m.createScope none).1.insertSymbol (SymbolKind.block scope)).1
        m.scopes.length = scopeAt (m.createScope none).1 m.scopes.length := by
      rw [scopeAt, scopeAt, insertSymbol_scopes]
    rw [h, createScope_scopeAt_self]
  have hsmM3 : symAt
      (Module.setAsParentSymbol
        ((m.createScope none).1.insertSymbol (SymbolKind.block scope)).1
        m.symbols.length m.scopes.length)
      m.symbols.length = some ⟨none, SymbolKind.block scope⟩ := by
    rw [setParent_symAt]
    exact hsmI
  have hscM3 : scopeAt
      (Module.setAsParentSymbol
        ((m.createScope none).1.insertSymbol (SymbolKind.block scope)).1
        m.symbols.length m.scopes.length)
      m.scopes.length = some ⟨some m.symbols.length, [], []⟩ := by
    rw [setParent_scopeAt_self, hscI]
    rfl
  have hsclM3 : m.scopes.length <
      (Module.setAsParentSymbol
        ((m.createScope none).1.insertSymbol (SymbolKind.block scope)).1
        m.symbols.length m.scopes.length).scopes.length := by
    rw [setParent_scLen, insertSymbol_scopes, createScope_scLen]
    omega
  have hsylM3 : m.symbols.length <
      (Module.setAsParentSymbol
        ((m.createScope none).1.insertSymbol (SymbolKind.block scope)).1
        m.symbols.length m.scopes.length).symbols.length := by
    rw [setParent_symbols, insertSymbol_symLen, createScope_symbols]
    omega
  have hstm := addStatements_ok
    (Module.setAsParentSymbol
      ((m.createScope none).1.insertSymbol (SymbolKind.block scope)).1
      m.symbols.length m.scopes.length)
    m.scopes.length stmts hsclM3
  have hsmM4 : symAt
      (addStatements
        (Module.setAsParentSymbol
          ((m.createScope none).1.insertSymbol (SymbolKind.block scope)).1
          m.symbols.length m.scopes.length)
        m.scopes.length stmts)
      m.symbols.length = some ⟨none, SymbolKind.block scope⟩ := by
    rw [hstm.symPres _ hsylM3]
    exact hsmM3
  have hscM4 : (scopeAt
      (addStatements
        (Module.setAsParentSymbol
          ((m.createScope none).1.insertSymbol (SymbolKind.block scope)).1
          m.symbols.length m.scopes.length)
        m.scopes.length stmts)
      m.scopes.length).map ScopeData.parentSymbol
      = some (some m.symbols.length) := by
    rw [hstm.scPar _ hsclM3, hscM3]
    rfl
  refine ⟨hP2, hEq, ?_, ?_, by omega⟩
  · rw [hEq, addToScope_symAt_self, hsmM4]
    rfl
  · rw [hEq, addToScope_scPar, hscM4]

theorem insertSymbol_scopeAt (m : Module) (k : SymbolKind) (s : Nat) :
    scopeAt (m.insertSymbol k).1 s = scopeAt m s := by
  rw [scopeAt, scopeAt, insertSymbol_scopes]

/-- A `let` or `const` expression with an initializer, the two source arms
claim C7 ranges over. -/
def letOrConst (c : Bool) (tok : Option String) (e : Expr) : Expr :=
  match c with
  | true => Expr.constE tok (some e)
  | false => Expr.letE tok (some e)

/-- C7: the initializer of a `let`/`const` is lowered inside a fresh
transient scope created with `parent_symbol = None`; the slot is still
`None` after the initializer is lowered; the `Decl` symbol records the
transient scope as its `value`; and only then is the scope's
`parent_symbol` assigned — exactly once, from `None` to `Some` — to the
`Decl` handle. -/
theorem C7_transient_scope_once (m : Module) (scope : Nat)
    (tok : Option String) (e : Expr) (c : Bool) :
    (scopeAt (m.createScope none).1 m.scopes.length).map ScopeData.parentSymbol
      = some none ∧
    (scopeAt (addExpression (m.createScope none).1 m.scopes.length e).1
        m.scopes.length).map ScopeData.parentSymbol = some none ∧
    ∃ p, (addExpression m scope (letOrConst c tok e)).2 = some p ∧
      symAt (addExpression m scope (letOrConst c tok e)).1 p
        = some ⟨some scope,
            SymbolKind.decl (tok.getD "") "" c false false
              (some m.scopes.length) []⟩ ∧
      (scopeAt (addExpression m scope (letOrConst c tok e)).1
          m.scopes.length).map ScopeData.parentSymbol = some (some p) := by
  have hfr : m.scopes.length < (m.createScope none).1.scopes.length := by
    rw [createScope_scLen]
    omega
  have h1 : (scopeAt (m.createScope none).1 m.scopes.length).map
      ScopeData.parentSymbol = some none := by
    rw [createScope_scopeAt_self]
    rfl
  have hbE := (addExpression_ok (m.createScope none).1 m.scopes.length e hfr).1
  have h2 : (scopeAt (addExpression (m.createScope none).1 m.scopes.length
      e).1 m.scopes.length).map ScopeData.parentSymbol = some none := by
    rw [hbE.scPar _ hfr]
    exact h1
  refine ⟨h1, h2, ?_⟩
  have hfr2 : m.scopes.length <
      (addExpression (m.createScope none).1 m.scopes.length e).1.scopes.length :=
    Nat.lt_of_lt_of_le hfr hbE.scLen
  obtain ⟨sdE, hsdE⟩ := scopeAt_of_lt hfr2
  cases c with
  | false =>
    refine ⟨(addExpression (m.createScope none).1 m.scopes.length
        e).1.symbols.length, ?_, ?_, ?_⟩
    · simp only [letOrConst, addExpression]
      rw [createScope_snd, insertSymbol_snd]
    · simp only [letOrConst, addExpression]
      rw [createScope_snd, insertSymbol_snd, addToScope_symAt_self,
        setParent_symAt, insertSymbol_symAt_self]
      rfl
    · simp only [letOrConst, addExpression]
      rw [createScope_snd, insertSymbol_snd, addToScope_scPar,
        setParent_scopeAt_self, insertSymbol_scopeAt, hsdE]
      rfl
  | true =>
    refine ⟨(addExpression (m.createScope none).1 m.scopes.length
        e).1.symbols.length, ?_, ?_, ?_⟩
    · simp only [letOrConst, addExpression]
      rw [createScope_snd, insertSymbol_snd]
    · simp only [letOrConst, addExpression]
      rw [createScope_snd, insertSymbol_snd, addToScope_symAt_self,
        setParent_symAt, insertSymbol_symAt_self]
      rfl
    · simp only [letOrConst, addExpression]
      rw [createScope_snd, insertSymbol_snd, addToScope_scPar,
        setParent_scopeAt_self, insertSymbol_scopeAt, hsdE]
      rfl

/-- C4 (corrected): the union arm of the type formatter joins the member
renderings with the separator `"| "` (pipe, space) — NOT the spec's
`" | "` (space, pipe, space): the `first`-flag loop writes `"| "` before
every member but the first, with no leading space. -/
theorem C4_union_separator (hir : List TypeKind) (fuel t : Nat)
    (tys : List Nat) (h : hir[t]? = some (TypeKind.union tys)) :
    fmtType hir (fuel + 1) t = joinSep "| " (tys.map (fmtType hir fuel)) :=
  fmtType_union hir fuel t tys h

/-- C5 (corrected): the resolver selects by exact string equality on names,
so whenever a visible symbol is selected for a reference named `nm`, the
selected symbol's `name()` is exactly `some nm`.  In particular a
declaration whose name is the empty string IS selected by a reference whose
own name is empty — the specification's "a declaration with no name (empty
string) never matches" is wrong for empty-named references. -/
theorem C5_exact_name_selection (m : Module) (r : Nat) (nm : String) (v : Nat)
    (hfind : (visibleSymbolsFromSymbol m r).find? (selectsName m nm)
      = some v) :
    symName m v = some nm := by
  have hv := List.mem_of_find?_eq_some hfind
  have hsel : selectsName m nm v = true := List.find?_some hfind
  have hc : declCandidate m v = true := (visibleSymbols_mem hv).2
  obtain ⟨n, hn⟩ := declCandidate_symName hc
  simp only [selectsName, hn] at hsel
  rw [hn]
  have hnm : n = nm := by simpa using hsel
  rw [hnm]

/-- C1: after `resolve_references`, a reference symbol's target is the
first visible declaration candidate whose `name()` equals the reference's
name (`find?` over the visibility sequence), and the reference's handle has
been inserted into that target's `references` set; when no visible
candidate matches, the target is `None`. -/
theorem C1_resolve_reference_target (m : Module) (i : Nat) (ps : Option Nat)
    (nm : String) (pp : Bool) (t0 : Option Nat)
    (h : symAt m i = some ⟨ps, SymbolKind.reference nm pp t0⟩) :
    ((visibleSymbolsFromSymbol m i).find? (selectsName m nm) = none →
      symAt (resolveReferences m) i
        = some ⟨ps, SymbolKind.reference nm pp none⟩) ∧
    (∀ v, (visibleSymbolsFromSymbol m i).find? (selectsName m nm) = some v →
      symAt (resolveReferences m) i
        = some ⟨ps, SymbolKind.reference nm pp (some v)⟩ ∧
      i ∈ refsOf (resolveReferences m) v) := by
  have hi : i < m.symbols.length := symAt_lt_of_some h
  have hsplit : resolveReferences m
      = (List.range' (i + 1) (m.symbols.length - i - 1)).foldl resolveSymbol
          (resolveSymbol ((List.range i).foldl resolveSymbol m) i) := by
    rw [resolveReferences,
      foldl_range_split resolveSymbol m.symbols.length i hi]
  have hrp : RP m ((List.range i).foldl resolveSymbol m) := RP_foldl _ m
  have hstep := resolveSymbol_self_spec hrp h
  have hne : ∀ j ∈ List.range' (i + 1) (m.symbols.length - i - 1), i ≠ j := by
    intro j hj
    have := List.mem_range'_1.mp hj
    omega
  constructor
  · intro hf
    rw [hsplit]
    exact foldl_resolve_pres_ref _ _ hne (hstep.1 hf)
  · intro v hf
    obtain ⟨h2, h3⟩ := hstep.2 v hf
    rw [hsplit]
    exact ⟨foldl_resolve_pres_ref _ _ hne h2,
      foldl_resolve_refs_mono _ _ v i h3⟩

theorem C1_witness :
    symAt (resolveReferences ⟨[⟨none, [0, 1], []⟩],
        [⟨some 0, SymbolKind.decl "x" "" false false false none []⟩,
         ⟨some 0, SymbolKind.reference "x" false none⟩], 0⟩) 1
      = some ⟨some 0, SymbolKind.reference "x" false (some 0)⟩ ∧
    1 ∈ refsOf (resolveReferences ⟨[⟨none, [0, 1], []⟩],
        [⟨some 0, SymbolKind.decl "x" "" false false false none []⟩,
         ⟨some 0, SymbolKind.reference "x" false none⟩], 0⟩) 0 :=
  (C1_resolve_reference_target ⟨[⟨none, [0, 1], []⟩],
      [⟨some 0, SymbolKind.decl "x" "" false false false none []⟩,
       ⟨some 0, SymbolKind.reference "x" false none⟩], 0⟩ 1 (some 0) "x"
    false none (by decide)).2 0 (by decide)

theorem C2_witness :
    ∃ d, symAt (addExpression ⟨[⟨none, [], []⟩], [], 0⟩ 0
        (Expr.ifE (IfChain.mk (some Expr.litE) none none none))).1 0
        = some d ∧
      (∀ c ∈ childSyms d.kind, c < 0) ∧
      (∀ brs, d.kind = SymbolKind.ifK brs → ∀ c ∈ condSyms brs, 0 < c) :=
  C2_child_arena_order ⟨[⟨none, [], []⟩], [], 0⟩ 0
    (Expr.ifE (IfChain.mk (some Expr.litE) none none none)) 0 (by decide)
    (by simp [addExpression, addStatements, addStatement, addExprOpt, addExprListCollect, addObjectFields, addSwitchArms, addStmtsOpt, ifLoop, ifBranchStep, addParamsOpt, addParams, addPatIdentsOpt, addPatIdents, addPathSegments, buildModule, Module.createScope, Module.insertSymbol, Module.addToScope, Module.setAsParentSymbol, Module.setDocs, Module.pushIfBranch, modifyKind, listModify, symAt, scopeAt])

theorem C2_counterexample :
    (addExpression ⟨[⟨none, [], []⟩], [], 0⟩ 0
        (Expr.ifE (IfChain.mk (some Expr.litE) none none none))).2
      = some 0 ∧
    symAt (addExpression ⟨[⟨none, [], []⟩], [], 0⟩ 0
        (Expr.ifE (IfChain.mk (some Expr.litE) none none none))).1 0
      = some ⟨some 0, SymbolKind.ifK [(some 1, 1)]⟩ ∧
    ¬ 1 < 0 := by
  refine ⟨?_, ?_, by omega⟩
  · simp [addExpression, addStatements, addStatement, addExprOpt, addExprListCollect, addObjectFields, addSwitchArms, addStmtsOpt, ifLoop, ifBranchStep, addParamsOpt, addParams, addPatIdentsOpt, addPatIdents, addPathSegments, buildModule, Module.createScope, Module.insertSymbol, Module.addToScope, Module.setAsParentSymbol, Module.setDocs, Module.pushIfBranch, modifyKind, listModify, symAt, scopeAt]
  · simp [addExpression, addStatements, addStatement, addExprOpt, addExprListCollect, addObjectFields, addSwitchArms, addStmtsOpt, ifLoop, ifBranchStep, addParamsOpt, addParams, addPatIdentsOpt, addPatIdents, addPathSegments, buildModule, Module.createScope, Module.insertSymbol, Module.addToScope, Module.setAsParentSymbol, Module.setDocs, Module.pushIfBranch, modifyKind, listModify, symAt, scopeAt]

theorem C3_witness :
    (addExpression ⟨[⟨none, [], []⟩], [], 0⟩ 0 (Expr.blockE [])).2
      = some 0 ∧
    (addExpression ⟨[⟨none, [], []⟩], [], 0⟩ 0 (Expr.blockE [])).1
      = Module.addToScope
          (addStatements
            (Module.setAsParentSymbol
              (((⟨[⟨none, [], []⟩], [], 0⟩ : Module).createScope
                none).1.insertSymbol (SymbolKind.block 0)).1 0 1)
            1 [])
          0 0 false ∧
    symAt (addExpression ⟨[⟨none, [], []⟩], [], 0⟩ 0 (Expr.blockE [])).1 0
      = some ⟨some 0, SymbolKind.block 0⟩ ∧
    (scopeAt (addExpression ⟨[⟨none, [], []⟩], [], 0⟩ 0
        (Expr.blockE [])).1 1).map ScopeData.parentSymbol
      = some (some 0) ∧
    (0 : Nat) ≠ 1 :=
  C3_block_scope_field ⟨[⟨none, [], []⟩], [], 0⟩ 0 [] (by decide)

theorem C3_counterexample :
    symAt (addExpression ⟨[⟨none, [], []⟩], [], 0⟩ 0 (Expr.blockE [])).1 0
      = some ⟨some 0, SymbolKind.block 0⟩ ∧
    (scopeAt (addExpression ⟨[⟨none, [], []⟩], [], 0⟩ 0
        (Expr.blockE [])).1 1).map ScopeData.parentSymbol
      = some (some 0) ∧
    SymbolKind.block 0 ≠ SymbolKind.block 1 := by
  refine ⟨?_, ?_, by decide⟩
  · simp [addExpression, addStatements, addStatement, addExprOpt, addExprListCollect, addObjectFields, addSwitchArms, addStmtsOpt, ifLoop, ifBranchStep, addParamsOpt, addParams, addPatIdentsOpt, addPatIdents, addPathSegments, buildModule, Module.createScope, Module.insertSymbol, Module.addToScope, Module.setAsParentSymbol, Module.setDocs, Module.pushIfBranch, modifyKind, listModify, symAt, scopeAt]
  · simp [addExpression, addStatements, addStatement, addExprOpt, addExprListCollect, addObjectFields, addSwitchArms, addStmtsOpt, ifLoop, ifBranchStep, addParamsOpt, addParams, addPatIdentsOpt, addPatIdents, addPathSegments, buildModule, Module.createScope, Module.insertSymbol, Module.addToScope, Module.setAsParentSymbol, Module.setDocs, Module.pushIfBranch, modifyKind, listModify, symAt, scopeAt]

theorem C4_witness :
    fmtType [TypeKind.int, TypeKind.float, TypeKind.union [0, 1]] 2 2
      = joinSep "| " ([0, 1].map
          (fmtType [TypeKind.int, TypeKind.float, TypeKind.union [0, 1]] 1)) :=
  C4_union_separator [TypeKind.int, TypeKind.float, TypeKind.union [0, 1]]
    1 2 [0, 1] (by decide)

theorem C4_counterexample :
    fmtType [TypeKind.int, TypeKind.float, TypeKind.union [0, 1]] 2 2
      = "int| float" ∧
    ("int| float" : String) ≠ "int | float" := by
  constructor
  · decide
  · decide

theorem C5_witness :
    symName ⟨[⟨none, [0, 1], []⟩],
        [⟨some 0, SymbolKind.decl "" "" false false false none []⟩,
         ⟨some 0, SymbolKind.reference "" false none⟩], 0⟩ 0 = some "" :=
  C5_exact_name_selection ⟨[⟨none, [0, 1], []⟩],
      [⟨some 0, SymbolKind.decl "" "" false false false none []⟩,
       ⟨some 0, SymbolKind.reference "" false none⟩], 0⟩ 1 "" 0 (by decide)

theorem C5_counterexample :
    symAt (resolveReferences ⟨[⟨none, [0, 1], []⟩],
        [⟨some 0, SymbolKind.decl "" "" false false false none []⟩,
         ⟨some 0, SymbolKind.reference "" false none⟩], 0⟩) 1
      = some ⟨some 0, SymbolKind.reference "" false (some 0)⟩ ∧
    1 ∈ refsOf (resolveReferences ⟨[⟨none, [0, 1], []⟩],
        [⟨some 0, SymbolKind.decl "" "" false false false none []⟩,
         ⟨some 0, SymbolKind.reference "" false none⟩], 0⟩) 0 ∧
    symName ⟨[⟨none, [0, 1], []⟩],
        [⟨some 0, SymbolKind.decl "" "" false false false none []⟩,
         ⟨some 0, SymbolKind.reference "" false none⟩], 0⟩ 0
      = some "" := by
  decide

theorem C6_witness :
    ∃ d, symAt (addExpression ⟨[⟨none, [], []⟩], [], 0⟩ 0
        (Expr.fnE (some "f") none none)).1 0 = some d ∧
      (kindHoist d.kind = true →
        0 ∈ hoistedOf (addExpression ⟨[⟨none, [], []⟩], [], 0⟩ 0
          (Expr.fnE (some "f") none none)).1 0 ∧
        0 ∉ plainOf (addExpression ⟨[⟨none, [], []⟩], [], 0⟩ 0
          (Expr.fnE (some "f") none none)).1 0) ∧
      (kindHoist d.kind = false →
        0 ∈ plainOf (addExpression ⟨[⟨none, [], []⟩], [], 0⟩ 0
          (Expr.fnE (some "f") none none)).1 0 ∧
        0 ∉ hoistedOf (addExpression ⟨[⟨none, [], []⟩], [], 0⟩ 0
          (Expr.fnE (some "f") none none)).1 0) :=
  C6_hoist_attachment ⟨[⟨none, [], []⟩], [], 0⟩ 0
    (Expr.fnE (some "f") none none) 0 (by decide)
    (by unfold INV ScopeOk scopeMembers; decide)
    (by simp [addExpression, addStatements, addStatement, addExprOpt, addExprListCollect, addObjectFields, addSwitchArms, addStmtsOpt, ifLoop, ifBranchStep, addParamsOpt, addParams, addPatIdentsOpt, addPatIdents, addPathSegments, buildModule, Module.createScope, Module.insertSymbol, Module.addToScope, Module.setAsParentSymbol, Module.setDocs, Module.pushIfBranch, modifyKind, listModify, symAt, scopeAt])

end Rhai
